import Mathlib

/-!
The api-gateway-proxy adapter: request reconstruction and response capture.

A shallow embedding of `proxy.go`.  Go strings and byte slices are byte
sequences, so both are lists of bytes here.  Functions of the Go standard
library that the program calls (`unicode/utf8`, `encoding/base64`,
`net/textproto`, `net/url`, `net/http`, `strings`, `net`) are embedded next
to the program's own functions, under the names they have in Go.
-/

namespace Proxy

/-! ## Bytes and strings -/

abbrev Byte := Fin 256

/-- A Go `string` (and a `[]byte`): a sequence of bytes. -/
abbrev GoString := List Byte

/-- The UTF-8 encoding of a code point, as the Go compiler stores the
characters of a string literal. -/
def encodeRune (n : Nat) : List Byte :=
  if n < 0x80 then [Fin.ofNat n]
  else if n < 0x800 then [Fin.ofNat (0xC0 + n / 64), Fin.ofNat (0x80 + n % 64)]
  else if n < 0x10000 then
    [Fin.ofNat (0xE0 + n / 4096), Fin.ofNat (0x80 + n / 64 % 64), Fin.ofNat (0x80 + n % 64)]
  else
    [Fin.ofNat (0xF0 + n / 262144), Fin.ofNat (0x80 + n / 4096 % 64),
     Fin.ofNat (0x80 + n / 64 % 64), Fin.ofNat (0x80 + n % 64)]

/-- The bytes of a source literal. -/
def str (s : String) : GoString := s.toList.flatMap (fun c => encodeRune c.toNat)

/-! ## unicode/utf8 -/

/-- One entry of the `first` table of `unicode/utf8`: for a leading byte
`≥ 0x80`, the size of the encoding and the accepted range of the second
byte; `none` is the table's `xx` (illegal starter byte). -/
def utf8First (p0 : Nat) : Option (Nat × Nat × Nat) :=
  if 0xC2 ≤ p0 ∧ p0 ≤ 0xDF then some (2, 0x80, 0xBF)
  else if p0 = 0xE0 then some (3, 0xA0, 0xBF)
  else if 0xE1 ≤ p0 ∧ p0 ≤ 0xEC then some (3, 0x80, 0xBF)
  else if p0 = 0xED then some (3, 0x80, 0x9F)
  else if 0xEE ≤ p0 ∧ p0 ≤ 0xEF then some (3, 0x80, 0xBF)
  else if p0 = 0xF0 then some (4, 0x90, 0xBF)
  else if 0xF1 ≤ p0 ∧ p0 ≤ 0xF3 then some (4, 0x80, 0xBF)
  else if p0 = 0xF4 then some (4, 0x80, 0x8F)
  else none

/-- A continuation byte: between `locb` and `hicb`. -/
def utf8Cont (c : Byte) : Bool := 0x80 ≤ c.val && c.val ≤ 0xBF

/-- Go `utf8.Valid`: the bytes are entirely well-formed UTF-8. -/
def utf8Valid : List Byte → Bool
  | [] => true
  | p0 :: rest =>
    if p0.val < 0x80 then utf8Valid rest
    else
      match utf8First p0.val, rest with
      | some (2, lo, hi), c1 :: r =>
          decide (lo ≤ c1.val ∧ c1.val ≤ hi) && utf8Valid r
      | some (3, lo, hi), c1 :: c2 :: r =>
          decide (lo ≤ c1.val ∧ c1.val ≤ hi) && utf8Cont c2 && utf8Valid r
      | some (4, lo, hi), c1 :: c2 :: c3 :: r =>
          decide (lo ≤ c1.val ∧ c1.val ≤ hi) && utf8Cont c2 && utf8Cont c3 && utf8Valid r
      | _, _ => false

/-! ## encoding/base64, `StdEncoding` -/

/-- The standard alphabet: the character that encodes a 6-bit value. -/
def encodeStd (v : Nat) : Byte :=
  if v < 26 then Fin.ofNat (65 + v)
  else if v < 52 then Fin.ofNat (97 + (v - 26))
  else if v < 62 then Fin.ofNat (48 + (v - 52))
  else if v = 62 then Fin.ofNat 43
  else Fin.ofNat 47

/-- The padding character `=`. -/
def padChar : Byte := Fin.ofNat 61

/-- The `decodeMap` of `StdEncoding`: the 6-bit value of an alphabet
character, `none` (the table's `0xff`) for every other byte. -/
def decodeMap (c : Byte) : Option Nat :=
  if 65 ≤ c.val ∧ c.val ≤ 90 then some (c.val - 65)
  else if 97 ≤ c.val ∧ c.val ≤ 122 then some (c.val - 97 + 26)
  else if 48 ≤ c.val ∧ c.val ≤ 57 then some (c.val - 48 + 52)
  else if c.val = 43 then some 62
  else if c.val = 47 then some 63
  else none

/-- Go `base64.StdEncoding.EncodeToString`: three bytes become four
characters; a remainder of one or two bytes is padded with `=`.  The shifts
and masks of the Go code are written as divisions and remainders. -/
def EncodeToString : List Byte → GoString
  | [] => []
  | [a] => [encodeStd (a.val / 4), encodeStd (a.val % 4 * 16), padChar, padChar]
  | [a, b] =>
      [encodeStd (a.val / 4), encodeStd (a.val % 4 * 16 + b.val / 16),
       encodeStd (b.val % 16 * 4), padChar]
  | a :: b :: c :: rest =>
      encodeStd (a.val / 4) :: encodeStd (a.val % 4 * 16 + b.val / 16) ::
      encodeStd (b.val % 16 * 4 + c.val / 64) :: encodeStd (c.val % 64) ::
      EncodeToString rest

/-- The errors of the program. -/
inductive Error
  /-- The `base64.CorruptInputError` of a malformed body. -/
  | corruptInput
  /-- The error of `http.NewRequest` for a method that is not a token. -/
  | invalidMethod
  /-- The error of `url.Parse` inside `http.NewRequest`. -/
  | urlParse
  /-- The `errors.New("response status code not set")` of `writer.response`. -/
  | statusNotSet
  deriving DecidableEq, Repr

deriving instance DecidableEq for Except

/-- Is the byte `\n` or `\r`, which the decoder skips. -/
def isNewline (c : Byte) : Bool := c.val = 10 || c.val = 13

/-- Skips leading `\r` and `\n`. -/
def skipNewlines : List Byte → List Byte
  | [] => []
  | c :: rest => if isNewline c then skipNewlines rest else c :: rest

/-- The bytes of a quantum: `dbuf` holds up to four 6-bit values (missing
ones are zero) and `dlen - 1` bytes of the 24-bit value are written. -/
def quantumBytes (dbuf : List Nat) : List Byte :=
  let val := dbuf.getD 0 0 * 262144 + dbuf.getD 1 0 * 4096 + dbuf.getD 2 0 * 64 + dbuf.getD 3 0
  ([Fin.ofNat (val / 65536), Fin.ofNat (val / 256), Fin.ofNat val] : List Byte).take (dbuf.length - 1)

/-- The loop of `Encoding.Decode` over `decodeQuantum`: `dbuf` holds the
values of the current quantum read so far, `dst` the bytes decoded so far.
Padding is required (`StdEncoding`), decoding is not strict, and `\r` and
`\n` are ignored wherever they stand. -/
def decodeLoop : List Byte → List Nat → List Byte → Except Error (List Byte)
  | [], dbuf, dst => if dbuf.length = 0 then .ok dst else .error .corruptInput
  | c :: src, dbuf, dst =>
    match decodeMap c with
    | some out =>
        if dbuf.length = 3 then decodeLoop src [] (dst ++ quantumBytes (dbuf ++ [out]))
        else decodeLoop src (dbuf ++ [out]) dst
    | none =>
        if isNewline c then decodeLoop src dbuf dst
        else if c ≠ padChar then .error .corruptInput
        else if dbuf.length < 2 then .error .corruptInput
        else if dbuf.length = 2 then
          match skipNewlines src with
          | [] => .error .corruptInput
          | d :: src2 =>
              if d ≠ padChar then .error .corruptInput
              else if skipNewlines src2 ≠ [] then .error .corruptInput
              else .ok (dst ++ quantumBytes dbuf)
        else
          if skipNewlines src ≠ [] then .error .corruptInput
          else .ok (dst ++ quantumBytes dbuf)

/-- Go `base64.StdEncoding.DecodeString`. -/
def DecodeString (s : GoString) : Except Error (List Byte) := decodeLoop s [] []

/-! ## strings and net -/

/-- The byte of an ASCII character literal. -/
def ch (c : Char) : Byte := Fin.ofNat c.toNat

/-- Go `strings.HasPrefix`. -/
def startsWith (s pre : GoString) : Bool := pre.isPrefixOf s

/-- Go `strings.Split(s, sep)` for a separator of one byte: the pieces
between the separators, always at least one piece. -/
def Split (s : GoString) (sep : Byte) : List GoString :=
  match s with
  | [] => [[]]
  | c :: rest =>
    if c = sep then [] :: Split rest sep
    else
      match Split rest sep with
      | [] => [[c]]
      | piece :: pieces => (c :: piece) :: pieces

/-- Go `strings.Trim(s, cutset)` for a cutset of one ASCII byte: the
leading and the trailing occurrences of the byte are removed. -/
def Trim (s : GoString) (cut : Byte) : GoString :=
  ((s.dropWhile (fun c => c = cut)).reverse.dropWhile (fun c => c = cut)).reverse

/-- Go `strings.ToUpper`: an ASCII-only string has its letters `a`-`z`
mapped to `A`-`Z`; any other string goes through `unicode.ToUpper`. -/
def ToUpper (mapUnicodeToUpper : GoString → GoString) (s : GoString) : GoString :=
  if s.all (fun c => c.val < 0x80) then
    s.map (fun c => if 97 ≤ c.val ∧ c.val ≤ 122 then Fin.ofNat (c.val - 32) else c)
  else mapUnicodeToUpper s

/-- Go `strings.Cut(s, sep)` for a separator of one byte: the text before
and after the first separator, and whether it was found. -/
def Cut (s : GoString) (sep : Byte) : GoString × GoString × Bool :=
  match s with
  | [] => ([], [], false)
  | c :: rest =>
    if c = sep then ([], rest, true)
    else
      let r := Cut rest sep
      (c :: r.1, r.2.1, r.2.2)

/-- Go `strings.LastIndex(s, sep)` for a separator of one byte, `none`
for `-1`. -/
def LastIndex (s : GoString) (sep : Byte) : Option Nat :=
  match s with
  | [] => none
  | c :: rest =>
    match LastIndex rest sep with
    | some i => some (i + 1)
    | none => if c = sep then some 0 else none

/-- Go `net.JoinHostPort`: a host with a colon is taken for a literal IPv6
address and put in brackets. -/
def JoinHostPort (host port : GoString) : GoString :=
  if host.contains (ch ':') then str "[" ++ host ++ str "]:" ++ port
  else host ++ str ":" ++ port

/-! ## net/url -/

/-- The `encoding` modes of `net/url`. -/
inductive Encoding
  | encodePath
  | encodePathSegment
  | encodeHost
  | encodeZone
  | encodeUserPassword
  | encodeQueryComponent
  | encodeFragment
  deriving DecidableEq, Repr

/-- Go `shouldEscape` of `net/url`. -/
def shouldEscape (c : Byte) (mode : Encoding) : Bool :=
  if (97 ≤ c.val ∧ c.val ≤ 122) ∨ (65 ≤ c.val ∧ c.val ≤ 90) ∨ (48 ≤ c.val ∧ c.val ≤ 57) then false
  else if (mode = .encodeHost ∨ mode = .encodeZone) ∧
      c.val ∈ [33, 36, 38, 39, 40, 41, 42, 43, 44, 59, 61, 58, 91, 93, 60, 62, 34] then false
  else if c.val ∈ [45, 95, 46, 126] then false
  else if c.val ∈ [36, 38, 43, 44, 47, 58, 59, 61, 63, 64] ∧
      mode ∈ [.encodePath, .encodePathSegment, .encodeUserPassword,
              .encodeQueryComponent, .encodeFragment] then
    match mode with
    | .encodePath => c.val = 63
    | .encodePathSegment => c.val = 47 || c.val = 59 || c.val = 44 || c.val = 63
    | .encodeUserPassword => c.val = 64 || c.val = 47 || c.val = 63 || c.val = 58
    | .encodeQueryComponent => true
    | _ => false
  else if mode = .encodeFragment ∧ c.val ∈ [33, 40, 41, 42] then false
  else true

/-- The table `upperhex`: the upper-case hexadecimal digit of a value
below sixteen. -/
def upperhex (v : Nat) : Byte :=
  if v < 10 then Fin.ofNat (48 + v) else Fin.ofNat (65 + (v - 10))

/-- Go `escape` of `net/url`. -/
def escape (s : GoString) (mode : Encoding) : GoString :=
  match s with
  | [] => []
  | c :: rest =>
    if shouldEscape c mode then
      if c.val = 32 ∧ mode = .encodeQueryComponent then ch '+' :: escape rest mode
      else ch '%' :: upperhex (c.val / 16) :: upperhex (c.val % 16) :: escape rest mode
    else c :: escape rest mode

/-- Go `QueryEscape`. -/
def QueryEscape (s : GoString) : GoString := escape s .encodeQueryComponent

/-- Go `ishex`. -/
def ishex (c : Byte) : Bool :=
  (48 ≤ c.val && c.val ≤ 57) || (97 ≤ c.val && c.val ≤ 102) || (65 ≤ c.val && c.val ≤ 70)

/-- Go `unhex`. -/
def unhex (c : Byte) : Nat :=
  if 48 ≤ c.val ∧ c.val ≤ 57 then c.val - 48
  else if 97 ≤ c.val ∧ c.val ≤ 102 then c.val - 97 + 10
  else if 65 ≤ c.val ∧ c.val ≤ 70 then c.val - 65 + 10
  else 0

/-- Go `unescape` of `net/url`, both passes in one: `none` is an
`EscapeError` or an `InvalidHostError`. -/
def unescape (s : GoString) (mode : Encoding) : Option GoString :=
  match s with
  | [] => some []
  | c :: rest =>
    if c = ch '%' then
      match rest with
      | h1 :: h2 :: rest2 =>
        if !ishex h1 || !ishex h2 then none
        else if mode = .encodeHost ∧ unhex h1 < 8 ∧ ¬ (h1 = ch '2' ∧ h2 = ch '5') then none
        else if mode = .encodeZone ∧ ¬ (h1 = ch '2' ∧ h2 = ch '5') ∧
            unhex h1 * 16 + unhex h2 ≠ 32 ∧
            shouldEscape (Fin.ofNat (unhex h1 * 16 + unhex h2)) .encodeHost then none
        else (unescape rest2 mode).map (fun t => Fin.ofNat (unhex h1 * 16 + unhex h2) :: t)
      | _ => none
    else if c = ch '+' then
      (unescape rest mode).map
        (fun t => (if mode = .encodeQueryComponent then ch ' ' else ch '+') :: t)
    else if (mode = .encodeHost ∨ mode = .encodeZone) ∧ c.val < 0x80 ∧
        shouldEscape c .encodeHost then none
    else (unescape rest mode).map (fun t => c :: t)

/-- Go `url.Userinfo`. -/
structure Userinfo where
  username : GoString
  password : GoString
  passwordSet : Bool
  deriving DecidableEq, Repr

/-- Go `url.URL`. -/
structure URL where
  Scheme : GoString := []
  Opaque : GoString := []
  User : Option Userinfo := none
  Host : GoString := []
  Path : GoString := []
  RawPath : GoString := []
  OmitHost : Bool := false
  ForceQuery : Bool := false
  RawQuery : GoString := []
  Fragment : GoString := []
  RawFragment : GoString := []
  deriving DecidableEq, Repr

/-- Go `validEncoded` of `net/url`. -/
def validEncoded (s : GoString) (mode : Encoding) : Bool :=
  s.all (fun c =>
    if c.val ∈ [33, 36, 38, 39, 40, 41, 42, 43, 44, 59, 61, 58, 64] then true
    else if c.val = 91 ∨ c.val = 93 then true
    else if c.val = 37 then true
    else !shouldEscape c mode)

/-- Go `URL.EscapedPath`. -/
def URL.EscapedPath (u : URL) : GoString :=
  if u.RawPath ≠ [] ∧ validEncoded u.RawPath .encodePath ∧
      unescape u.RawPath .encodePath = some u.Path then u.RawPath
  else if u.Path = str "*" then str "*"
  else escape u.Path .encodePath

/-- Go `URL.EscapedFragment`. -/
def URL.EscapedFragment (u : URL) : GoString :=
  if u.RawFragment ≠ [] ∧ validEncoded u.RawFragment .encodeFragment ∧
      unescape u.RawFragment .encodeFragment = some u.Fragment then u.RawFragment
  else escape u.Fragment .encodeFragment

/-- Go `Userinfo.String`. -/
def Userinfo.String (u : Userinfo) : GoString :=
  escape u.username .encodeUserPassword ++
    (if u.passwordSet then str ":" ++ escape u.password .encodeUserPassword else [])

/-- Go `URL.String`. -/
def URL.String (u : URL) : GoString :=
  let buf0 : GoString := if u.Scheme ≠ [] then u.Scheme ++ str ":" else []
  let buf1 : GoString :=
    if u.Opaque ≠ [] then buf0 ++ u.Opaque
    else
      let bufA : GoString :=
        if u.Scheme ≠ [] ∨ u.Host ≠ [] ∨ u.User.isSome then
          if u.OmitHost ∧ u.Host = [] ∧ u.User.isNone then buf0
          else
            let b1 := if u.Host ≠ [] ∨ u.Path ≠ [] ∨ u.User.isSome then buf0 ++ str "//" else buf0
            let b2 := match u.User with
              | some ui => b1 ++ ui.String ++ str "@"
              | none => b1
            if u.Host ≠ [] then b2 ++ escape u.Host .encodeHost else b2
        else buf0
      let path := u.EscapedPath
      let bufB : GoString :=
        if path ≠ [] ∧ path.head? ≠ some (ch '/') ∧ u.Host ≠ [] then bufA ++ str "/" else bufA
      let bufC : GoString :=
        if bufB = [] ∧ (Cut path (ch '/')).1.contains (ch ':') then bufB ++ str "./" else bufB
      bufC ++ path
  let buf2 : GoString :=
    if u.ForceQuery ∨ u.RawQuery ≠ [] then buf1 ++ str "?" ++ u.RawQuery else buf1
  if u.Fragment ≠ [] then buf2 ++ str "#" ++ u.EscapedFragment else buf2

/-- Go `stringContainsCTLByte`. -/
def stringContainsCTLByte (s : GoString) : Bool := s.any (fun b => b.val < 32 || b.val = 0x7f)

/-- The loop of Go `getScheme`: `some (some i)` for a scheme that ends at
the colon of index `i`, `some none` for no scheme, `none` for the error
`missing protocol scheme`. -/
def getSchemeScan : List Byte → Nat → Option (Option Nat)
  | [], _ => some none
  | c :: rest, i =>
    if (97 ≤ c.val ∧ c.val ≤ 122) ∨ (65 ≤ c.val ∧ c.val ≤ 90) then getSchemeScan rest (i + 1)
    else if (48 ≤ c.val ∧ c.val ≤ 57) ∨ c = ch '+' ∨ c = ch '-' ∨ c = ch '.' then
      if i = 0 then some none else getSchemeScan rest (i + 1)
    else if c = ch ':' then
      if i = 0 then none else some (some i)
    else some none

/-- Go `getScheme`: the scheme and the rest, `none` for an error. -/
def getScheme (rawURL : GoString) : Option (GoString × GoString) :=
  match getSchemeScan rawURL 0 with
  | none => none
  | some none => some ([], rawURL)
  | some (some i) => some (rawURL.take i, rawURL.drop (i + 1))

/-- Go `strings.ToLower` on ASCII text (a scheme has only ASCII bytes). -/
def asciiLower (s : GoString) : GoString :=
  s.map (fun c => if 65 ≤ c.val ∧ c.val ≤ 90 then Fin.ofNat (c.val + 32) else c)

/-- Go `validOptionalPort`. -/
def validOptionalPort (port : GoString) : Bool :=
  match port with
  | [] => true
  | c :: digits => c = ch ':' && digits.all (fun b => 48 ≤ b.val && b.val ≤ 57)

/-- Go `strings.Index(s, "%25")`, `none` for `-1`. -/
def indexPercent25 : GoString → Option Nat
  | [] => none
  | c :: rest =>
    if (str "%25").isPrefixOf (c :: rest) then some 0
    else (indexPercent25 rest).map (fun i => i + 1)

/-- Go `parseHost`. -/
def parseHost (host : GoString) : Option GoString :=
  if startsWith host (str "[") then
    match LastIndex host (ch ']') with
    | none => none
    | some i =>
      if !validOptionalPort (host.drop (i + 1)) then none
      else
        match indexPercent25 (host.take i) with
        | some zone =>
          match unescape (host.take zone) .encodeHost,
                unescape ((host.take i).drop zone) .encodeZone,
                unescape (host.drop i) .encodeHost with
          | some host1, some host2, some host3 => some (host1 ++ host2 ++ host3)
          | _, _, _ => none
        | none => unescape host .encodeHost
  else
    match LastIndex host (ch ':') with
    | some i => if !validOptionalPort (host.drop i) then none else unescape host .encodeHost
    | none => unescape host .encodeHost

/-- Go `validUserinfo`. -/
def validUserinfo (s : GoString) : Bool :=
  s.all (fun c =>
    (65 ≤ c.val && c.val ≤ 90) || (97 ≤ c.val && c.val ≤ 122) || (48 ≤ c.val && c.val ≤ 57) ||
    decide (c.val ∈ [45, 46, 95, 58, 126, 33, 36, 38, 39, 40, 41, 42, 43, 44, 59, 61, 37, 64]))

/-- Go `parseAuthority`. -/
def parseAuthority (authority : GoString) : Option (Option Userinfo × GoString) :=
  match LastIndex authority (ch '@') with
  | none => (parseHost authority).map (fun host => (none, host))
  | some i =>
    match parseHost (authority.drop (i + 1)) with
    | none => none
    | some host =>
      let userinfo := authority.take i
      if !validUserinfo userinfo then none
      else if !userinfo.contains (ch ':') then
        (unescape userinfo .encodeUserPassword).map
          (fun name => (some { username := name, password := [], passwordSet := false }, host))
      else
        let c := Cut userinfo (ch ':')
        match unescape c.1 .encodeUserPassword, unescape c.2.1 .encodeUserPassword with
        | some name, some pass =>
          some (some { username := name, password := pass, passwordSet := true }, host)
        | _, _ => none

/-- Go `URL.setPath`. -/
def URL.setPath (u : URL) (p : GoString) : Option URL :=
  match unescape p .encodePath with
  | none => none
  | some path =>
    some { u with Path := path, RawPath := if p = escape path .encodePath then [] else p }

/-- Go `URL.setFragment`. -/
def URL.setFragment (u : URL) (f : GoString) : Option URL :=
  match unescape f .encodeFragment with
  | none => none
  | some frag =>
    some { u with Fragment := frag,
                  RawFragment := if f = escape frag .encodeFragment then [] else f }

/-- Go `parse(rawURL, false)` of `net/url`, `none` for an error. -/
def parse (rawURL : GoString) : Option URL :=
  if stringContainsCTLByte rawURL then none
  else if rawURL = str "*" then some { Path := str "*" }
  else
    match getScheme rawURL with
    | none => none
    | some (scheme, rest0) =>
      let url0 : URL := { Scheme := asciiLower scheme }
      let (rest, url1) : GoString × URL :=
        if rest0.getLast? = some (ch '?') ∧ rest0.count (ch '?') = 1 then
          (rest0.dropLast, { url0 with ForceQuery := true })
        else ((Cut rest0 (ch '?')).1, { url0 with RawQuery := (Cut rest0 (ch '?')).2.1 })
      if !startsWith rest (str "/") ∧ url1.Scheme ≠ [] then some { url1 with Opaque := rest }
      else if !startsWith rest (str "/") ∧ (Cut rest (ch '/')).1.contains (ch ':') then none
      else if (url1.Scheme ≠ [] ∨ !startsWith rest (str "///")) ∧ startsWith rest (str "//") then
        let authority0 := rest.drop 2
        let (authority, rest2) : GoString × GoString :=
          match authority0.indexOf? (ch '/') with
          | some i => (authority0.take i, authority0.drop i)
          | none => (authority0, [])
        match parseAuthority authority with
        | none => none
        | some (user, host) => URL.setPath { url1 with User := user, Host := host } rest2
      else if url1.Scheme ≠ [] ∧ startsWith rest (str "/") then
        URL.setPath { url1 with OmitHost := true } rest
      else URL.setPath url1 rest

/-- Go `url.Parse`, `none` for an error. -/
def Parse (rawURL : GoString) : Option URL :=
  let c := Cut rawURL (ch '#')
  match parse c.1 with
  | none => none
  | some url => if c.2.1 = [] then some url else url.setFragment c.2.1

/-- Go `url.Values`, a `map[string][]string`, kept as the list of its
keys with their values. -/
abbrev Values := List (GoString × List GoString)

/-- Go `Values.Add`: `v[key] = append(v[key], value)`. -/
def Values.Add (v : Values) (key value : GoString) : Values :=
  match v with
  | [] => [(key, [value])]
  | (k, vs) :: rest =>
    if k = key then (k, vs ++ [value]) :: rest else (k, vs) :: Values.Add rest key value

/-- Go `Values.Encode`: the keys are sorted as strings (byte-wise), every
value is written as `key=value` with both sides query-escaped, and the pairs
are joined by `&`. -/
def Values.Encode (v : Values) : GoString :=
  let keys := (v.map Prod.fst).insertionSort (fun a b => a ≤ b)
  keys.foldl (fun buf k =>
    ((v.lookup k).getD []).foldl (fun buf val =>
      (if buf ≠ [] then buf ++ str "&" else buf) ++ QueryEscape k ++ str "=" ++ QueryEscape val)
      buf) []

/-! ## net/textproto and net/http: headers -/

/-- The `isTokenTable` of `net/textproto`: the bytes allowed in a header
field name (RFC 7230 token characters). -/
def validHeaderFieldByte (c : Byte) : Bool :=
  (48 ≤ c.val && c.val ≤ 57) || (65 ≤ c.val && c.val ≤ 90) || (97 ≤ c.val && c.val ≤ 122) ||
  c.val = 33 || c.val = 35 || c.val = 36 || c.val = 37 || c.val = 38 || c.val = 39 ||
  c.val = 42 || c.val = 43 || c.val = 45 || c.val = 46 || c.val = 94 || c.val = 95 ||
  c.val = 96 || c.val = 124 || c.val = 126

/-- The second loop of `canonicalMIMEHeaderKey`: upper case for the first
letter and after each dash, lower case elsewhere. -/
def canonicalLoop : Bool → List Byte → List Byte
  | _, [] => []
  | upper, c :: rest =>
    let c2 : Byte :=
      if upper && (97 ≤ c.val && c.val ≤ 122) then Fin.ofNat (c.val - 32)
      else if !upper && (65 ≤ c.val && c.val ≤ 90) then Fin.ofNat (c.val + 32)
      else c
    c2 :: canonicalLoop (c2.val = 45) rest

/-- Go `textproto.CanonicalMIMEHeaderKey`: a key with a byte that is not a
token character (a space included) is returned unchanged. -/
def CanonicalMIMEHeaderKey (s : GoString) : GoString :=
  if s.all validHeaderFieldByte then canonicalLoop true s else s

/-- A Go `map[string][]string`, the type under `http.Header`: a key is
absent (`none`) or bound to a slice of values. -/
abbrev Header := GoString → Option (List GoString)

/-- The result of `make(http.Header)`. -/
def Header.empty : Header := fun _ => none

/-- The values of a map index expression `h[key]`: `nil` for an absent key. -/
def Header.index (h : Header) (key : GoString) : List GoString := (h key).getD []

/-- Go `Header.Get`: the first value under the canonical key, or `""`. -/
def Header.Get (h : Header) (key : GoString) : GoString :=
  match h.index (CanonicalMIMEHeaderKey key) with
  | [] => []
  | v :: _ => v

/-- Go `Header.Values`: all values under the canonical key. -/
def Header.Values (h : Header) (key : GoString) : List GoString :=
  h.index (CanonicalMIMEHeaderKey key)

/-- Go `Header.Add`: appends to the values under the canonical key. -/
def Header.Add (h : Header) (key value : GoString) : Header :=
  Function.update h (CanonicalMIMEHeaderKey key)
    (some (h.index (CanonicalMIMEHeaderKey key) ++ [value]))

/-- Go `Header.Set`: replaces the values under the canonical key. -/
def Header.Set (h : Header) (key value : GoString) : Header :=
  Function.update h (CanonicalMIMEHeaderKey key) (some [value])

/-- Go `Header.Del`: removes the canonical key. -/
def Header.Del (h : Header) (key : GoString) : Header :=
  Function.update h (CanonicalMIMEHeaderKey key) none

/-! ## The functions of the Go standard library taken as given -/

/-- Two library functions whose tables are not embedded: the content
sniffer of `net/http` and the Unicode branch of `strings.ToUpper`. -/
structure Stdlib where
  /-- Go `http.DetectContentType`. -/
  DetectContentType : List Byte → GoString
  /-- Go `strings.Map(unicode.ToUpper, s)`, which `strings.ToUpper` calls
  for a string with a byte `≥ 0x80`. -/
  mapUnicodeToUpper : GoString → GoString

/-! ## The response payload and the capturer -/

/-- The fields of `events.APIGatewayV2HTTPResponse` that `proxy.go` sets. -/
structure APIGatewayV2HTTPResponse where
  StatusCode : Int
  MultiValueHeaders : Header
  Body : GoString
  IsBase64Encoded : Bool

/-- `InternalServerErrorResponse` returns a standard 500 error response. -/
def InternalServerErrorResponse : APIGatewayV2HTTPResponse :=
  { StatusCode := 500
    MultiValueHeaders := fun k => if k = str "Content-Type" then some [str "application/json"] else none
    Body := str "\x7b\"errorCode\":\"500\"\x7d"
    IsBase64Encoded := false }

def defaultStatusCode : Int := -1

def contentTypeHeaderKey : GoString := str "Content-Type"

/-- Go `http.StatusOK`. -/
def StatusOK : Int := 200

/-- The `writer` struct; `body` is the content of the `bytes.Buffer`. -/
structure writer where
  status : Int
  headers : Header
  body : List Byte

/-- `NewResponseWriter` returns a new ResponseWriter for the request. -/
def NewResponseWriter : writer :=
  { status := defaultStatusCode, headers := Header.empty, body := [] }

/-- The method `writer.Header`. -/
def writer.Header (w : writer) : Header := w.headers

/-- The method `writer.Write`: the writer after the call and the returned
count; the returned error is that of `bytes.Buffer.Write`, always `nil`. -/
def writer.Write (lib : Stdlib) (w : writer) (b : List Byte) : writer × Nat :=
  let w1 : writer := if w.status = defaultStatusCode then { w with status := StatusOK } else w
  let w2 : writer :=
    if w1.Header.Get contentTypeHeaderKey = [] then
      { w1 with headers := w1.Header.Add contentTypeHeaderKey (lib.DetectContentType b) }
    else w1
  ({ w2 with body := w2.body ++ b }, b.length)

/-- The method `writer.WriteHeader`. -/
def writer.WriteHeader (w : writer) (statusCode : Int) : writer :=
  { w with status := statusCode }

/-- The method `writer.response`: the payload and the error (`none` is `nil`). -/
def writer.response (w : writer) : APIGatewayV2HTTPResponse × Option Error :=
  if w.status = defaultStatusCode then
    (InternalServerErrorResponse, some Error.statusNotSet)
  else
    let bodyBytes := w.body
    if utf8Valid bodyBytes then
      ({ StatusCode := w.status, MultiValueHeaders := w.headers,
         Body := bodyBytes, IsBase64Encoded := false }, none)
    else
      ({ StatusCode := w.status, MultiValueHeaders := w.headers,
         Body := EncodeToString bodyBytes, IsBase64Encoded := true }, none)

/-! ## net/http: requests -/

/-- The fields of `http.Request` that `http.NewRequest` and `proxy.go` set;
`Body` is the content that reading the body stream yields. -/
structure Request where
  Method : GoString
  URL : URL
  Header : Header
  Body : List Byte
  Host : GoString
  RemoteAddr : GoString
  RequestURI : GoString

/-- Go `validMethod`: a method is a non-empty token. -/
def validMethod (method : GoString) : Bool := method ≠ [] && method.all validHeaderFieldByte

/-- Go `hasPort`: `strings.LastIndex(s, ":") > strings.LastIndex(s, "]")`. -/
def hasPort (s : GoString) : Bool :=
  match LastIndex s (ch ':'), LastIndex s (ch ']') with
  | some i, some j => j < i
  | some _, none => true
  | none, _ => false

/-- Go `removeEmptyPort`: strips the empty port of `"host:"`. -/
def removeEmptyPort (host : GoString) : GoString :=
  if hasPort host then (if host.getLast? = some (ch ':') then host.dropLast else host) else host

/-- Go `http.NewRequest`; the body is a `*bytes.Reader` over `body`. -/
def NewRequest (method url : GoString) (body : List Byte) : Except Error Request :=
  let method := if method = [] then str "GET" else method
  if !validMethod method then .error .invalidMethod
  else
    match Parse url with
    | none => .error .urlParse
    | some u =>
      let u : URL := { u with Host := removeEmptyPort u.Host }
      .ok { Method := method, URL := u, Header := Header.empty, Body := body,
            Host := u.Host, RemoteAddr := [], RequestURI := [] }

/-! ## The gateway event -/

/-- The fields of `events.APIGatewayV2HTTPRequestContextHTTPDescription`
that `proxy.go` reads. -/
structure APIGatewayV2HTTPRequestContextHTTPDescription where
  Method : GoString := []
  Path : GoString := []
  SourceIP : GoString := []

/-- The fields of `events.APIGatewayV2HTTPRequestContext` that `proxy.go`
reads. -/
structure APIGatewayV2HTTPRequestContext where
  DomainName : GoString := []
  HTTP : APIGatewayV2HTTPRequestContextHTTPDescription := {}

/-- The fields of `events.APIGatewayV2HTTPRequest` that `proxy.go` reads.
A Go map is kept as the list of its entries in the order in which `range`
visits them; its keys are pairwise distinct. -/
structure APIGatewayV2HTTPRequest where
  RawPath : GoString := []
  RawQueryString : GoString := []
  Headers : List (GoString × GoString) := []
  QueryStringParameters : List (GoString × GoString) := []
  RequestContext : APIGatewayV2HTTPRequestContext := {}
  Body : GoString := []
  IsBase64Encoded : Bool := false

/-- The loop over `e.Headers` of `RequestForEvent`. -/
def translateHeaders (headers : List (GoString × GoString)) (h : Header) : Header :=
  headers.foldl (fun h kv =>
    (Split kv.2 (ch ',')).foldl (fun h val =>
      if kv.1 = str "User-Agent" then h.Set kv.1 kv.2
      else h.Add kv.1 (Trim val (ch ' '))) h) h

/-- The `url.URL` that `RequestForEvent` builds before `http.NewRequest`. -/
def eventURI (e : APIGatewayV2HTTPRequest) : URL :=
  let path := if e.RawPath.length = 0 then e.RequestContext.HTTP.Path else e.RawPath
  let path := if !startsWith path (str "/") then str "/" ++ path else path
  let host := e.RequestContext.DomainName
  let host := if host.length = 0 then str "localhost" else host
  let host := match e.Headers.lookup (str "X-Forwarded-Port") with
    | some port => JoinHostPort host port
    | none => host
  let rawQuery :=
    if e.RawQueryString.length > 0 then e.RawQueryString
    else if e.QueryStringParameters.length > 0 then
      Values.Encode (e.QueryStringParameters.foldl (fun query kv => Values.Add query kv.1 kv.2) [])
    else []
  { Scheme := str "https", Path := path, Host := host, RawQuery := rawQuery }

/-- `RequestForEvent` converts the APIGatewayV2HTTPRequest into a standard
golang http.Request. -/
def RequestForEvent (lib : Stdlib) (e : APIGatewayV2HTTPRequest) : Except Error Request :=
  match (if e.IsBase64Encoded then DecodeString e.Body else .ok e.Body) with
  | .error err => .error err
  | .ok body =>
    let uri := eventURI e
    match NewRequest (ToUpper lib.mapUnicodeToUpper e.RequestContext.HTTP.Method) uri.String body with
    | .error err => .error err
    | .ok req =>
      .ok { req with Header := translateHeaders e.Headers req.Header,
                     RemoteAddr := e.RequestContext.HTTP.SourceIP,
                     RequestURI := uri.String }

/-! ## What a handler does to the capturer -/

/-- One use of the `http.ResponseWriter` by the wrapped handler: a mutation
of the map returned by `Header()` (the handler holds the map itself, so any
change of it), a call of `WriteHeader`, or a call of `Write`. -/
inductive Op where
  | header (f : Header → Header)
  | writeHeader (statusCode : Int)
  | write (b : List Byte)

/-- The capturer after one operation. -/
def writer.step (lib : Stdlib) (w : writer) : Op → writer
  | .header f => { w with headers := f w.headers }
  | .writeHeader statusCode => w.WriteHeader statusCode
  | .write b => (w.Write lib b).1

/-- The capturer after a sequence of operations, first to last. -/
def writer.run (lib : Stdlib) (w : writer) (ops : List Op) : writer :=
  ops.foldl (writer.step lib) w

/-! ## The adapter -/

/-- A wrapped `http.Handler`: the operations its `ServeHTTP` performs on the
response writer for a request. -/
abbrev HttpHandler := Request → List Op

/-- `Handler` converts the APIGatewayV2HTTPRequest into a standard golang
http.Request and provides a simple writer. -/
def Handler (lib : Stdlib) (handler : HttpHandler) (event : APIGatewayV2HTTPRequest) :
    APIGatewayV2HTTPResponse × Option Error :=
  match RequestForEvent lib event with
  | .error err => (InternalServerErrorResponse, some err)
  | .ok req => (NewResponseWriter.run lib (handler req)).response

/-- A stand-in for the library functions taken as given, for evaluating the
program on concrete inputs: a sniffer that knows no format and answers with
the fallback type of `http.DetectContentType` (Go answers the same for data
that starts with no known signature and has a binary byte such as `0x01`),
and an upper-case mapping that leaves non-ASCII text alone. -/
def exampleLib : Stdlib :=
  { DetectContentType := fun _ => str "application/octet-stream"
    mapUnicodeToUpper := fun s => s }

/-- The event of the example: method GET, raw path `/foo/bar`, raw query
`baz=1`, the header `X-Forwarded-Port: 3000`, no domain name, source address
`127.0.0.1`, body not base64-encoded. -/
def exampleEvent : APIGatewayV2HTTPRequest :=
  { RawPath := str "/foo/bar"
    RawQueryString := str "baz=1"
    Headers := [(str "X-Forwarded-Port", str "3000")]
    RequestContext :=
      { DomainName := str ""
        HTTP := { Method := str "GET", Path := str "/foo/bar", SourceIP := str "127.0.0.1" } }
    IsBase64Encoded := false }

/-- The event `exampleEventV2` of `proxy_test.go`, with the entries of its
maps in the order of the JSON text. -/
def exampleEventV2 : APIGatewayV2HTTPRequest :=
  { RawPath := str "/foo/bar"
    RawQueryString := str "baz=1"
    Headers :=
      [(str "Connection", str "close"),
       (str "Host", str "127.0.0.1:3000"),
       (str "User-Agent", str "Paw/3.2 (Macintosh; OS X/10.16.0) GCDHTTPRequest"),
       (str "X-Forwarded-Port", str "3000"),
       (str "X-Forwarded-Proto", str "http")]
    QueryStringParameters := [(str "baz", str "1")]
    RequestContext :=
      { DomainName := str ""
        HTTP := { Method := str "GET", Path := str "/foo/bar", SourceIP := str "127.0.0.1" } }
    IsBase64Encoded := false }

/-- An event with a comma-separated `Accept` header and a `User-Agent` that
has a comma. -/
def acceptEvent : APIGatewayV2HTTPRequest :=
  { exampleEvent with
    Headers :=
      [(str "Accept", str "text/html, application/json ,*/*"),
       (str "User-Agent", str "Mozilla/5.0 (X11; Linux x86_64), like Gecko")] }

/-- An event whose header map has both `user-agent` and `User-Agent`, the
lower-case entry visited first. -/
def lowerFirstEvent : APIGatewayV2HTTPRequest :=
  { exampleEvent with
    Headers := [(str "user-agent", str "a, b"), (str "User-Agent", str "x,y")] }

/-- The same header map visited in the other order. -/
def lowerLastEvent : APIGatewayV2HTTPRequest :=
  { exampleEvent with
    Headers := [(str "User-Agent", str "x,y"), (str "user-agent", str "a, b")] }

/-- An event flagged as base64 whose body is not base64. -/
def badBodyEvent : APIGatewayV2HTTPRequest :=
  { exampleEvent with Body := str "%%%", IsBase64Encoded := true }

/-- A capturer after `WriteHeader(200)` and a body of two bytes that are
not UTF-8. -/
def binaryWriter : writer := { status := 200, headers := Header.empty, body := [0xFF, 0x41] }

/-- A capturer on which the handler has set `Content-Type: text/html`. -/
def htmlWriter : writer :=
  { NewResponseWriter with headers := Header.empty.Set contentTypeHeaderKey (str "text/html") }

/-- The example event with an empty method. -/
def emptyMethodEvent : APIGatewayV2HTTPRequest :=
  { exampleEvent with
    RequestContext :=
      { DomainName := str ""
        HTTP := { Method := str "", Path := str "/foo/bar", SourceIP := str "127.0.0.1" } } }

/-- The example event with the method in mixed case. -/
def mixedCaseEvent : APIGatewayV2HTTPRequest :=
  { exampleEvent with
    RequestContext :=
      { DomainName := str ""
        HTTP := { Method := str "pAtCh", Path := str "/foo/bar", SourceIP := str "127.0.0.1" } } }

/-- The example event with a body that is base64 text (of `hi`), not flagged
as base64. -/
def base64TextEvent : APIGatewayV2HTTPRequest := { exampleEvent with Body := str "aGk=" }

/-- The example event without a raw path, with a context path that has no
leading slash and has a space and a question mark. -/
def contextPathEvent : APIGatewayV2HTTPRequest :=
  { exampleEvent with
    RawPath := str ""
    RequestContext :=
      { DomainName := str ""
        HTTP := { Method := str "GET", Path := str "a b/c?d", SourceIP := str "127.0.0.1" } } }

/-- The example event with a raw query string that has a `#`. -/
def hashQueryEvent : APIGatewayV2HTTPRequest :=
  { exampleEvent with
    RawQueryString := str "a=1#b"
    QueryStringParameters := [(str "a", str "1#b")] }

/-- The example event with an IPv6 literal for domain name. -/
def ipv6Event : APIGatewayV2HTTPRequest :=
  { exampleEvent with
    RequestContext :=
      { DomainName := str "::1"
        HTTP := { Method := str "GET", Path := str "/foo/bar", SourceIP := str "127.0.0.1" } } }

/-- The example event with an empty forwarded port. -/
def emptyPortEvent : APIGatewayV2HTTPRequest :=
  { exampleEvent with Headers := [(str "X-Forwarded-Port", str "")] }

/-- The canonical query string of a mapping, in the words of the
specification: the pairs in ascending order of their keys, each written
`key=value` with key and value query-escaped, joined by `&`. -/
def canonicalQuery (params : List (GoString × GoString)) : GoString :=
  (str "&").intercalate
    ((params.insertionSort (fun a b => a.1 ≤ b.1)).map
      (fun kv => QueryEscape kv.1 ++ str "=" ++ QueryEscape kv.2))

/-- The example event without a raw query string, with three query
parameters that need escaping, not in the order of their keys. -/
def queryParamsEvent : APIGatewayV2HTTPRequest :=
  { exampleEvent with
    RawQueryString := str ""
    QueryStringParameters := [(str "q", str "a b"), (str "k#", str "1&2"), (str "a", str "é")] }

/-! ## Base64: decoding inverts encoding -/

theorem decodeMap_encodeStd (v : Nat) (hv : v < 64) : decodeMap (encodeStd v) = some v := by
  have h : ∀ u : Fin 64, decodeMap (encodeStd u.val) = some u.val := by decide
  exact h ⟨v, hv⟩

theorem decodeLoop_value0 (v : Nat) (hv : v < 64) (src dst : List Byte) :
    decodeLoop (encodeStd v :: src) [] dst = decodeLoop src [v] dst := by
  simp [decodeLoop, decodeMap_encodeStd v hv]

theorem decodeLoop_value1 (v : Nat) (hv : v < 64) (x : Nat) (src dst : List Byte) :
    decodeLoop (encodeStd v :: src) [x] dst = decodeLoop src [x, v] dst := by
  simp [decodeLoop, decodeMap_encodeStd v hv]

theorem decodeLoop_value2 (v : Nat) (hv : v < 64) (x y : Nat) (src dst : List Byte) :
    decodeLoop (encodeStd v :: src) [x, y] dst = decodeLoop src [x, y, v] dst := by
  simp [decodeLoop, decodeMap_encodeStd v hv]

theorem decodeLoop_value3 (v : Nat) (hv : v < 64) (x y z : Nat) (src dst : List Byte) :
    decodeLoop (encodeStd v :: src) [x, y, z] dst =
      decodeLoop src [] (dst ++ quantumBytes [x, y, z, v]) := by
  simp [decodeLoop, decodeMap_encodeStd v hv]

theorem quantumBytes_four (a b c : Byte) :
    quantumBytes [a.val / 4, a.val % 4 * 16 + b.val / 16, b.val % 16 * 4 + c.val / 64, c.val % 64]
      = [a, b, c] := by
  have ha := a.isLt
  have hb := b.isLt
  have hc := c.isLt
  simp only [quantumBytes, List.getD_cons_zero, List.getD_cons_succ, List.length_cons,
    List.length_nil]
  simp only [List.take, List.cons.injEq, and_true]
  refine ⟨?_, ?_, ?_⟩ <;> apply Fin.ext <;> simp [Fin.ofNat] <;> omega

theorem quantumBytes_three (a b : Byte) :
    quantumBytes [a.val / 4, a.val % 4 * 16 + b.val / 16, b.val % 16 * 4] = [a, b] := by
  have ha := a.isLt
  have hb := b.isLt
  simp only [quantumBytes, List.getD_cons_zero, List.getD_cons_succ, List.length_cons,
    List.length_nil, List.getD_nil]
  simp only [List.take, List.cons.injEq, and_true]
  refine ⟨?_, ?_⟩ <;> apply Fin.ext <;> simp [Fin.ofNat] <;> omega

theorem quantumBytes_two (a : Byte) :
    quantumBytes [a.val / 4, a.val % 4 * 16] = [a] := by
  have ha := a.isLt
  simp only [quantumBytes, List.getD_cons_zero, List.getD_cons_succ, List.length_cons,
    List.length_nil, List.getD_nil]
  simp only [List.take, List.cons.injEq, and_true]
  apply Fin.ext
  simp [Fin.ofNat]
  omega

theorem decodeLoop_pad_one (x y z : Nat) (dst : List Byte) :
    decodeLoop [padChar] [x, y, z] dst = .ok (dst ++ quantumBytes [x, y, z]) := by
  have h1 : decodeMap padChar = none := by decide
  have h2 : isNewline padChar = false := by decide
  simp [decodeLoop, h1, h2, skipNewlines]

theorem decodeLoop_pad_two (x y : Nat) (dst : List Byte) :
    decodeLoop [padChar, padChar] [x, y] dst = .ok (dst ++ quantumBytes [x, y]) := by
  have h1 : decodeMap padChar = none := by decide
  have h2 : isNewline padChar = false := by decide
  simp [decodeLoop, h1, h2, skipNewlines]

theorem decodeLoop_EncodeToString (b dst : List Byte) :
    decodeLoop (EncodeToString b) [] dst = .ok (dst ++ b) := by
  induction b using EncodeToString.induct generalizing dst with
  | case1 => simp [EncodeToString, decodeLoop]
  | case2 a =>
    have ha := a.isLt
    rw [EncodeToString, decodeLoop_value0 _ (by omega), decodeLoop_value1 _ (by omega),
      decodeLoop_pad_two, quantumBytes_two]
  | case3 a b =>
    have ha := a.isLt
    have hb := b.isLt
    rw [EncodeToString, decodeLoop_value0 _ (by omega), decodeLoop_value1 _ (by omega),
      decodeLoop_value2 _ (by omega), decodeLoop_pad_one, quantumBytes_three]
  | case4 a b c rest ih =>
    have ha := a.isLt
    have hb := b.isLt
    have hc := c.isLt
    rw [EncodeToString, decodeLoop_value0 _ (by omega), decodeLoop_value1 _ (by omega),
      decodeLoop_value2 _ (by omega), decodeLoop_value3 _ (by omega), quantumBytes_four, ih]
    simp

/-- Decoding the standard base64 encoding of any bytes gives the bytes back. -/
theorem DecodeString_EncodeToString (b : List Byte) :
    DecodeString (EncodeToString b) = .ok b := by
  simpa [DecodeString] using decodeLoop_EncodeToString b []

/-! ## The capturer: finalization -/

/-- C1: finalizing a capturer whose status is set (not the sentinel) with
buffered body `b` succeeds; for valid UTF-8 the payload body is `b` itself with
`isBase64Encoded = false`, otherwise the body is the padded standard base64
encoding of `b` with `isBase64Encoded = true`, and decoding that body gives
back exactly `b`. -/
theorem response_body_encoding (w : writer) (hset : w.status ≠ defaultStatusCode) :
    (utf8Valid w.body = true →
      w.response = ({ StatusCode := w.status, MultiValueHeaders := w.headers,
                      Body := w.body, IsBase64Encoded := false }, none)) ∧
    (utf8Valid w.body = false →
      w.response = ({ StatusCode := w.status, MultiValueHeaders := w.headers,
                      Body := EncodeToString w.body, IsBase64Encoded := true }, none) ∧
      DecodeString w.response.1.Body = .ok w.body) := by
  constructor
  · intro hv
    simp [writer.response, hset, hv]
  · intro hv
    have hr : w.response = (⟨w.status, w.headers, EncodeToString w.body, true⟩, none) := by
      simp [writer.response, hset, hv]
    refine ⟨hr, ?_⟩
    rw [hr]
    exact DecodeString_EncodeToString w.body

theorem response_body_encoding_witness :
    binaryWriter.status ≠ defaultStatusCode ∧
    utf8Valid binaryWriter.body = false ∧
    binaryWriter.response.1.IsBase64Encoded = true ∧
    binaryWriter.response.1.Body = str "/0E=" ∧
    DecodeString binaryWriter.response.1.Body = .ok binaryWriter.body :=
  have h := (response_body_encoding binaryWriter (by decide)).2 (by decide)
  ⟨by decide, by decide, by rw [h.1], by rw [h.1]; decide, h.2⟩

/-! ## The capturer: status -/

theorem run_append (lib : Stdlib) (w : writer) (ops1 ops2 : List Op) :
    w.run lib (ops1 ++ ops2) = (w.run lib ops1).run lib ops2 := by
  simp [writer.run, List.foldl_append]

theorem run_cons (lib : Stdlib) (w : writer) (op : Op) (ops : List Op) :
    w.run lib (op :: ops) = (w.step lib op).run lib ops := rfl

theorem run_header_status (lib : Stdlib) (fs : List (Header → Header)) (w : writer) :
    (w.run lib (fs.map Op.header)).status = w.status := by
  induction fs generalizing w with
  | nil => rfl
  | cons f fs ih =>
    rw [List.map_cons, run_cons, ih]
    rfl

theorem Write_status (lib : Stdlib) (w : writer) (b : List Byte) :
    (w.Write lib b).1.status = if w.status = defaultStatusCode then StatusOK else w.status := by
  unfold writer.Write
  by_cases h : w.status = defaultStatusCode <;> simp only [h, if_true, if_false] <;> split <;> rfl

theorem run_status_kept (lib : Stdlib) (ops : List Op) (hno : ∀ c, Op.writeHeader c ∉ ops)
    (w : writer) (hset : w.status ≠ defaultStatusCode) :
    (w.run lib ops).status = w.status := by
  induction ops generalizing w with
  | nil => rfl
  | cons op ops ih =>
    have hno2 : ∀ c, Op.writeHeader c ∉ ops := fun c hc => hno c (List.mem_cons_of_mem _ hc)
    rw [run_cons]
    cases op with
    | header f => exact ih hno2 _ hset
    | writeHeader c => exact absurd (List.mem_cons_self _ _) (hno c)
    | write b =>
      have hst : (w.step lib (Op.write b)).status = w.status := by
        simp [writer.step, Write_status, hset]
      rw [ih hno2 _ (by rw [hst]; exact hset), hst]

theorem run_status_implicit (lib : Stdlib) (ops : List Op) (hno : ∀ c, Op.writeHeader c ∉ ops)
    (hw : ∃ b, Op.write b ∈ ops) (w : writer) (hunset : w.status = defaultStatusCode) :
    (w.run lib ops).status = StatusOK := by
  induction ops generalizing w with
  | nil =>
    obtain ⟨b, hb⟩ := hw
    cases hb
  | cons op ops ih =>
    have hno2 : ∀ c, Op.writeHeader c ∉ ops := fun c hc => hno c (List.mem_cons_of_mem _ hc)
    rw [run_cons]
    cases op with
    | header f =>
      obtain ⟨b, hb⟩ := hw
      have hb2 : Op.write b ∈ ops := by
        rcases List.mem_cons.mp hb with h | h
        · cases h
        · exact h
      exact ih hno2 ⟨b, hb2⟩ _ hunset
    | writeHeader c => exact absurd (List.mem_cons_self _ _) (hno c)
    | write b =>
      have hst : (w.step lib (Op.write b)).status = StatusOK := by
        simp [writer.step, Write_status, hunset]
      rw [run_status_kept lib ops hno2 _ (by rw [hst]; decide), hst]

theorem response_of_status_set (w : writer) (h : w.status ≠ defaultStatusCode) :
    w.response.2 = none ∧ w.response.1.StatusCode = w.status ∧
    w.response.1.MultiValueHeaders = w.headers := by
  unfold writer.response
  rw [if_neg h]
  by_cases hv : utf8Valid w.body = true <;> simp [hv]

/-- C6: finalizing a fresh capturer on which the handler only changed the
header map, by any mutations, fails with the status-not-set error, and the
payload returned with the error is the fixed fallback: status 500, the single
header `Content-Type: application/json`, body `{"errorCode":"500"}`, not base64
encoded, so none of the handler's headers are in it. -/
theorem response_without_status_fails (lib : Stdlib) (fs : List (Header → Header)) :
    (NewResponseWriter.run lib (fs.map Op.header)).response =
      (InternalServerErrorResponse, some Error.statusNotSet) ∧
    InternalServerErrorResponse.StatusCode = 500 ∧
    (∀ k, InternalServerErrorResponse.MultiValueHeaders k =
      if k = str "Content-Type" then some [str "application/json"] else none) ∧
    InternalServerErrorResponse.Body = str "\x7b\"errorCode\":\"500\"\x7d" ∧
    InternalServerErrorResponse.IsBase64Encoded = false := by
  refine ⟨?_, rfl, fun _ => rfl, rfl, rfl⟩
  have hs := run_header_status lib fs NewResponseWriter
  unfold writer.response
  rw [if_pos (by rw [hs]; rfl)]

/-- C7: on a fresh capturer, a sequence of operations with at least one
body-write and no status-set (header mutations allowed anywhere) finalizes
without error to a payload with statusCode 200. -/
theorem response_status_ok_after_write (lib : Stdlib) (ops : List Op)
    (hno : ∀ c, Op.writeHeader c ∉ ops) (hw : ∃ b, Op.write b ∈ ops) :
    (NewResponseWriter.run lib ops).response.2 = none ∧
    (NewResponseWriter.run lib ops).response.1.StatusCode = 200 := by
  have hs : (NewResponseWriter.run lib ops).status = 200 := by
    exact run_status_implicit lib ops hno hw NewResponseWriter rfl
  have h := response_of_status_set (NewResponseWriter.run lib ops)
    (by rw [hs]; simp [defaultStatusCode])
  exact ⟨h.1, by rw [h.2.1, hs]⟩

theorem response_status_ok_after_write_witness :
    (∀ c, Op.writeHeader c ∉
      [Op.header (fun h => h.Set (str "X-A") (str "1")), Op.write (str "hi"), Op.write [0xFF]]) ∧
    (∃ b, Op.write b ∈
      [Op.header (fun h => h.Set (str "X-A") (str "1")), Op.write (str "hi"), Op.write [0xFF]]) ∧
    (NewResponseWriter.run exampleLib
      [Op.header (fun h => h.Set (str "X-A") (str "1")), Op.write (str "hi"),
       Op.write [0xFF]]).response.2 = none ∧
    (NewResponseWriter.run exampleLib
      [Op.header (fun h => h.Set (str "X-A") (str "1")), Op.write (str "hi"),
       Op.write [0xFF]]).response.1.StatusCode = 200 :=
  have hno : ∀ c, Op.writeHeader c ∉
      [Op.header (fun h => h.Set (str "X-A") (str "1")), Op.write (str "hi"), Op.write [0xFF]] :=
    fun c hc => by simp at hc
  have hw : ∃ b, Op.write b ∈
      [Op.header (fun h => h.Set (str "X-A") (str "1")), Op.write (str "hi"), Op.write [0xFF]] :=
    ⟨str "hi", by simp⟩
  ⟨hno, hw, response_status_ok_after_write exampleLib _ hno hw⟩

/-- C8, as amended: when the last status-set of a sequence of operations on a
fresh capturer passes a code other than the sentinel `-1`, finalization
succeeds and the payload's statusCode is that code, whatever earlier
status-sets, header mutations and body-writes there were and whatever
body-writes and header mutations follow. -/
theorem response_status_last_set (lib : Stdlib) (pre post : List Op) (code : Int)
    (hlast : ∀ c, Op.writeHeader c ∉ post) (hcode : code ≠ defaultStatusCode) :
    (NewResponseWriter.run lib (pre ++ Op.writeHeader code :: post)).response.2 = none ∧
    (NewResponseWriter.run lib (pre ++ Op.writeHeader code :: post)).response.1.StatusCode
      = code := by
  have hs : (NewResponseWriter.run lib (pre ++ Op.writeHeader code :: post)).status = code := by
    rw [run_append, run_cons, run_status_kept lib post hlast _ hcode]
    rfl
  have h := response_of_status_set (NewResponseWriter.run lib (pre ++ Op.writeHeader code :: post))
    (by rw [hs]; exact hcode)
  exact ⟨h.1, by rw [h.2.1, hs]⟩

theorem response_status_last_set_witness :
    (∀ c, Op.writeHeader c ∉ [Op.write (str "gone")]) ∧ (404 : Int) ≠ defaultStatusCode ∧
    (NewResponseWriter.run exampleLib
      ([Op.write (str "a"), Op.writeHeader (-1)] ++
        Op.writeHeader 404 :: [Op.write (str "gone")])).response.2 = none ∧
    (NewResponseWriter.run exampleLib
      ([Op.write (str "a"), Op.writeHeader (-1)] ++
        Op.writeHeader 404 :: [Op.write (str "gone")])).response.1.StatusCode = 404 :=
  have hlast : ∀ c, Op.writeHeader c ∉ [Op.write (str "gone")] := fun c hc => by simp at hc
  ⟨hlast, by decide,
    response_status_last_set exampleLib [Op.write (str "a"), Op.writeHeader (-1)]
      [Op.write (str "gone")] 404 hlast (by decide)⟩

/-- C8 fails as stated at the status code `-1`: after `WriteHeader(-1)`
finalization fails with the status-not-set error, and after `WriteHeader(-1)`
followed by a body-write the payload's statusCode is 200, not the code of the
last status-set. -/
theorem response_status_sentinel_counterexample :
    (NewResponseWriter.run exampleLib [Op.writeHeader (-1)]).response.2
      = some Error.statusNotSet ∧
    (NewResponseWriter.run exampleLib [Op.writeHeader (-1), Op.write (str "x")]).response.2
      = none ∧
    (NewResponseWriter.run exampleLib [Op.writeHeader (-1), Op.write (str "x")]).response.1.StatusCode
      = 200 := by
  decide

/-! ## The capturer: content sniffing -/

theorem CanonicalMIMEHeaderKey_contentType :
    CanonicalMIMEHeaderKey contentTypeHeaderKey = contentTypeHeaderKey := by decide

theorem Write_headers_sniff (lib : Stdlib) (w : writer) (b : List Byte)
    (h : w.headers.Get contentTypeHeaderKey = []) :
    (w.Write lib b).1.headers =
      Function.update w.headers contentTypeHeaderKey
        (some (w.headers.index contentTypeHeaderKey ++ [lib.DetectContentType b])) := by
  unfold writer.Write
  by_cases hs : w.status = defaultStatusCode <;>
    simp [hs, writer.Header, h, Header.Add, CanonicalMIMEHeaderKey_contentType]

theorem Write_headers_keep (lib : Stdlib) (w : writer) (b : List Byte)
    (h : w.headers.Get contentTypeHeaderKey ≠ []) :
    (w.Write lib b).1.headers = w.headers := by
  unfold writer.Write
  by_cases hs : w.status = defaultStatusCode <;> simp [hs, writer.Header, h]

theorem Write_status_set (lib : Stdlib) (w : writer) (b : List Byte) :
    (w.Write lib b).1.status ≠ defaultStatusCode := by
  rw [Write_status]
  by_cases h : w.status = defaultStatusCode
  · rw [if_pos h]; decide
  · rw [if_neg h]; exact h

/-- C9: a body-write of `b` on a capturer whose header map has no
`Content-Type` value leaves the map equal to the previous one with
`Content-Type` bound to the single value `http.DetectContentType(b)`; every
other key is unchanged, and the finalized payload carries that value. -/
theorem Write_sniffs_content_type (lib : Stdlib) (w : writer) (b : List Byte)
    (hno : w.headers.index contentTypeHeaderKey = []) :
    (w.Write lib b).1.headers =
      Function.update w.headers contentTypeHeaderKey (some [lib.DetectContentType b]) ∧
    (∀ k, k ≠ contentTypeHeaderKey → (w.Write lib b).1.headers k = w.headers k) ∧
    (w.Write lib b).1.headers.Values contentTypeHeaderKey = [lib.DetectContentType b] ∧
    (w.Write lib b).1.response.2 = none ∧
    (w.Write lib b).1.response.1.MultiValueHeaders contentTypeHeaderKey
      = some [lib.DetectContentType b] := by
  have hget : w.headers.Get contentTypeHeaderKey = [] := by
    simp [Header.Get, CanonicalMIMEHeaderKey_contentType, hno]
  have hh := Write_headers_sniff lib w b hget
  rw [hno, List.nil_append] at hh
  have hr := response_of_status_set (w.Write lib b).1 (Write_status_set lib w b)
  refine ⟨hh, ?_, ?_, hr.1, ?_⟩
  · intro k hk
    rw [hh, Function.update_noteq hk]
  · rw [hh, Header.Values, Header.index, CanonicalMIMEHeaderKey_contentType,
      Function.update_same]
    rfl
  · rw [hr.2.2, hh]
    simp

theorem Write_sniffs_content_type_witness :
    ({ NewResponseWriter with headers := Header.empty.Set (str "X-A") (str "1") } : writer).headers.index
      contentTypeHeaderKey = [] ∧
    (({ NewResponseWriter with headers := Header.empty.Set (str "X-A") (str "1") } : writer).Write
      exampleLib [1, 2]).1.headers.Values contentTypeHeaderKey = [str "application/octet-stream"] ∧
    (({ NewResponseWriter with headers := Header.empty.Set (str "X-A") (str "1") } : writer).Write
      exampleLib [1, 2]).1.headers.Values (str "X-A") = [str "1"] :=
  have h := Write_sniffs_content_type exampleLib
    { NewResponseWriter with headers := Header.empty.Set (str "X-A") (str "1") } [1, 2] (by decide)
  ⟨by decide, h.2.2.1, by decide⟩

theorem run_keeps_content_type (lib : Stdlib) (ops : List Op)
    (hkeep : ∀ f, Op.header f ∈ ops → ∀ h : Header,
      h.Get contentTypeHeaderKey ≠ [] → (f h).Get contentTypeHeaderKey ≠ [])
    (w : writer) (hset : w.headers.Get contentTypeHeaderKey ≠ []) :
    (w.run lib ops).headers.Get contentTypeHeaderKey ≠ [] := by
  induction ops generalizing w with
  | nil => exact hset
  | cons op ops ih =>
    have hkeep2 : ∀ f, Op.header f ∈ ops → ∀ h : Header,
        h.Get contentTypeHeaderKey ≠ [] → (f h).Get contentTypeHeaderKey ≠ [] :=
      fun f hf => hkeep f (List.mem_cons_of_mem _ hf)
    rw [run_cons]
    apply ih hkeep2
    cases op with
    | header f => exact hkeep f (List.mem_cons_self _ _) _ hset
    | writeHeader c => exact hset
    | write b =>
      show (w.Write lib b).1.headers.Get contentTypeHeaderKey ≠ []
      rw [Write_headers_keep lib w b hset]
      exact hset

theorem Write_content_type_set (lib : Stdlib) (hsniff : ∀ x, lib.DetectContentType x ≠ [])
    (w : writer) (b : List Byte)
    (hfirst : w.headers.index contentTypeHeaderKey = [] ∨
      w.headers.Get contentTypeHeaderKey ≠ []) :
    (w.Write lib b).1.headers.Get contentTypeHeaderKey ≠ [] := by
  rcases hfirst with hi | h
  · have hget : w.headers.Get contentTypeHeaderKey = [] := by
      simp [Header.Get, CanonicalMIMEHeaderKey_contentType, hi]
    rw [Write_headers_sniff lib w b hget, hi, Header.Get, Header.index,
      CanonicalMIMEHeaderKey_contentType, Function.update_same]
    exact hsniff b
  · rw [Write_headers_keep lib w b h]
    exact h

/-- C10, as amended: a body-write re-sniffs whenever `Content-Type` has no
non-empty first value at that moment, so the claim holds for the sequences in
which it has one.  If before an earlier body-write `Content-Type` had no value
or a non-empty first value, the sniffer never answers with the empty string,
and the header mutations made since keep a non-empty first `Content-Type`
value non-empty, then a later body-write leaves the header map as it was; and
a body-write on any capturer whose first `Content-Type` value is non-empty
leaves the header map as it was. -/
theorem Write_keeps_headers (lib : Stdlib) (p1 p2 : List Op) (b1 b : List Byte) (w : writer)
    (hsniff : ∀ x, lib.DetectContentType x ≠ [])
    (hfirst : (NewResponseWriter.run lib p1).headers.index contentTypeHeaderKey = [] ∨
      (NewResponseWriter.run lib p1).headers.Get contentTypeHeaderKey ≠ [])
    (hkeep : ∀ f, Op.header f ∈ p2 → ∀ h : Header,
      h.Get contentTypeHeaderKey ≠ [] → (f h).Get contentTypeHeaderKey ≠ [])
    (hset : w.headers.Get contentTypeHeaderKey ≠ []) :
    ((NewResponseWriter.run lib (p1 ++ Op.write b1 :: p2)).Write lib b).1.headers =
      (NewResponseWriter.run lib (p1 ++ Op.write b1 :: p2)).headers ∧
    (w.Write lib b).1.headers = w.headers := by
  refine ⟨?_, Write_headers_keep lib w b hset⟩
  apply Write_headers_keep
  rw [run_append, run_cons]
  apply run_keeps_content_type lib p2 hkeep
  exact Write_content_type_set lib hsniff _ b1 hfirst

theorem Write_keeps_headers_witness :
    (∀ x, exampleLib.DetectContentType x ≠ []) ∧
    ((NewResponseWriter.run exampleLib []).headers.index contentTypeHeaderKey = [] ∨
      (NewResponseWriter.run exampleLib []).headers.Get contentTypeHeaderKey ≠ []) ∧
    (∀ f, Op.header f ∈ [Op.header (fun h => h.Set (str "X-A") (str "1"))] → ∀ h : Header,
      h.Get contentTypeHeaderKey ≠ [] → (f h).Get contentTypeHeaderKey ≠ []) ∧
    htmlWriter.headers.Get contentTypeHeaderKey ≠ [] ∧
    ((NewResponseWriter.run exampleLib
        ([] ++ Op.write [1, 2] :: [Op.header (fun h => h.Set (str "X-A") (str "1"))])).Write
        exampleLib (str "<html>")).1.headers =
      (NewResponseWriter.run exampleLib
        ([] ++ Op.write [1, 2] :: [Op.header (fun h => h.Set (str "X-A") (str "1"))])).headers ∧
    (htmlWriter.Write exampleLib [1, 2]).1.headers = htmlWriter.headers :=
  have hsniff : ∀ x, exampleLib.DetectContentType x ≠ [] :=
    fun _ => show str "application/octet-stream" ≠ [] by decide
  have hfirst : (NewResponseWriter.run exampleLib []).headers.index contentTypeHeaderKey = [] ∨
      (NewResponseWriter.run exampleLib []).headers.Get contentTypeHeaderKey ≠ [] :=
    Or.inl (by decide)
  have hkeep : ∀ f, Op.header f ∈ [Op.header (fun h => h.Set (str "X-A") (str "1"))] →
      ∀ h : Header, h.Get contentTypeHeaderKey ≠ [] → (f h).Get contentTypeHeaderKey ≠ [] := by
    intro f hf h hh
    simp only [List.mem_singleton, Op.header.injEq] at hf
    subst hf
    have hne : CanonicalMIMEHeaderKey contentTypeHeaderKey ≠ CanonicalMIMEHeaderKey (str "X-A") := by
      decide
    simpa [Header.Get, Header.index, Header.Set, Function.update_noteq hne] using hh
  have hset : htmlWriter.headers.Get contentTypeHeaderKey ≠ [] := by decide
  ⟨hsniff, hfirst, hkeep, hset,
    Write_keeps_headers exampleLib [] [Op.header (fun h => h.Set (str "X-A") (str "1"))]
      [1, 2] (str "<html>") htmlWriter hsniff hfirst hkeep hset⟩

/-- C10 fails as stated: after a first body-write, a handler that deletes
`Content-Type` makes the second body-write sniff again and change the header
map; and a body-write on a capturer whose `Content-Type` was set to the empty
string adds a sniffed value to it. -/
theorem Write_sniffs_again_counterexample :
    (NewResponseWriter.run exampleLib
      [Op.write [1, 2], Op.header (fun h => h.Del contentTypeHeaderKey)]).headers
        contentTypeHeaderKey = none ∧
    ((NewResponseWriter.run exampleLib
      [Op.write [1, 2], Op.header (fun h => h.Del contentTypeHeaderKey)]).Write
        exampleLib [3, 4]).1.headers contentTypeHeaderKey
      = some [str "application/octet-stream"] ∧
    (NewResponseWriter.run exampleLib
      [Op.header (fun h => h.Set contentTypeHeaderKey [])]).headers contentTypeHeaderKey
      = some [[]] ∧
    ((NewResponseWriter.run exampleLib
      [Op.header (fun h => h.Set contentTypeHeaderKey [])]).Write
        exampleLib [3, 4]).1.headers contentTypeHeaderKey
      = some [[], str "application/octet-stream"] := by
  decide

/-! ## Request reconstruction: headers -/

theorem CanonicalMIMEHeaderKey_userAgent :
    CanonicalMIMEHeaderKey (str "User-Agent") = str "User-Agent" := by decide

theorem Split_ne_nil (s : GoString) (sep : Byte) : Split s sep ≠ [] := by
  cases s with
  | nil => simp [Split]
  | cons c rest =>
    unfold Split
    split
    · simp
    · split <;> simp

theorem Add_index (h : Header) (k x key : GoString) :
    (h.Add k x).index key =
      if key = CanonicalMIMEHeaderKey k then h.index key ++ [x] else h.index key := by
  unfold Header.Add Header.index
  by_cases hk : key = CanonicalMIMEHeaderKey k
  · subst hk
    simp
  · simp [hk, Function.update_noteq hk]

theorem Set_index (h : Header) (k x key : GoString) :
    (h.Set k x).index key = if key = CanonicalMIMEHeaderKey k then [x] else h.index key := by
  unfold Header.Set Header.index
  by_cases hk : key = CanonicalMIMEHeaderKey k
  · subst hk
    simp
  · simp [hk, Function.update_noteq hk]

theorem foldl_Add_index (k : GoString) (f : GoString → GoString) (ps : List GoString)
    (h : Header) (key : GoString) :
    (ps.foldl (fun h val => h.Add k (f val)) h).index key =
      if key = CanonicalMIMEHeaderKey k then h.index key ++ ps.map f else h.index key := by
  induction ps generalizing h with
  | nil => simp
  | cons p ps ih =>
    rw [List.foldl_cons, ih, Add_index]
    by_cases hk : key = CanonicalMIMEHeaderKey k <;> simp [hk]

theorem foldl_Set_index (k v : GoString) (ps : List GoString) (hps : ps ≠ [])
    (h : Header) (key : GoString) :
    (ps.foldl (fun h _ => h.Set k v) h).index key =
      if key = CanonicalMIMEHeaderKey k then [v] else h.index key := by
  induction ps generalizing h with
  | nil => exact absurd rfl hps
  | cons p ps ih =>
    rw [List.foldl_cons]
    cases ps with
    | nil => simp [Set_index]
    | cons q qs =>
      rw [ih (by simp), Set_index]
      by_cases hk : key = CanonicalMIMEHeaderKey k <;> simp [hk]

theorem translateHeaders_append (a b : List (GoString × GoString)) (h : Header) :
    translateHeaders (a ++ b) h = translateHeaders b (translateHeaders a h) := by
  simp [translateHeaders, List.foldl_append]

theorem translateHeaders_cons (kv : GoString × GoString) (rest : List (GoString × GoString))
    (h : Header) :
    translateHeaders (kv :: rest) h = translateHeaders rest (translateHeaders [kv] h) := by
  simp [translateHeaders]

/-- A header entry other than `User-Agent` appends its trimmed pieces. -/
theorem translateHeaders_single_add (k v : GoString) (hk : k ≠ str "User-Agent") (h : Header)
    (key : GoString) :
    (translateHeaders [(k, v)] h).index key =
      if key = CanonicalMIMEHeaderKey k then
        h.index key ++ (Split v (ch ',')).map (fun val => Trim val (ch ' '))
      else h.index key := by
  simp only [translateHeaders, List.foldl_cons, List.foldl_nil, hk, if_false]
  exact foldl_Add_index k (fun val => Trim val (ch ' ')) _ h key

/-- The `User-Agent` entry replaces the values by the whole value. -/
theorem translateHeaders_single_set (v : GoString) (h : Header) (key : GoString) :
    (translateHeaders [(str "User-Agent", v)] h).index key =
      if key = str "User-Agent" then [v] else h.index key := by
  simp only [translateHeaders, List.foldl_cons, List.foldl_nil, if_true]
  rw [foldl_Set_index _ _ _ (Split_ne_nil _ _), CanonicalMIMEHeaderKey_userAgent]

theorem translateHeaders_single_other (kv : GoString × GoString) (h : Header) (key : GoString)
    (hne : CanonicalMIMEHeaderKey kv.1 ≠ key) :
    (translateHeaders [kv] h).index key = h.index key := by
  obtain ⟨k, v⟩ := kv
  by_cases hk : k = str "User-Agent"
  · subst hk
    rw [translateHeaders_single_set, if_neg]
    intro hkey
    exact hne (by rw [CanonicalMIMEHeaderKey_userAgent, hkey])
  · rw [translateHeaders_single_add k v hk, if_neg (fun hkey => hne hkey.symm)]

theorem translateHeaders_other (post : List (GoString × GoString)) (h : Header) (key : GoString)
    (hne : ∀ kv ∈ post, CanonicalMIMEHeaderKey kv.1 ≠ key) :
    (translateHeaders post h).index key = h.index key := by
  induction post generalizing h with
  | nil => rfl
  | cons kv post ih =>
    rw [translateHeaders_cons, ih _ (fun kv2 h2 => hne kv2 (List.mem_cons_of_mem _ h2)),
      translateHeaders_single_other kv h key (hne kv (List.mem_cons_self _ _))]

theorem translateHeaders_infix (ps : List GoString) (post : List (GoString × GoString))
    (h : Header) (key : GoString)
    (hua : key ≠ str "User-Agent" ∨ ∀ kv ∈ post, kv.1 ≠ str "User-Agent")
    (hps : ps <:+: h.index key) :
    ps <:+: (translateHeaders post h).index key := by
  induction post generalizing h with
  | nil => exact hps
  | cons kv post ih =>
    rw [translateHeaders_cons]
    apply ih
    · rcases hua with hkey | hpost
      · exact Or.inl hkey
      · exact Or.inr (fun kv2 h2 => hpost kv2 (List.mem_cons_of_mem _ h2))
    · obtain ⟨k, v⟩ := kv
      by_cases hk : k = str "User-Agent"
      · subst hk
        rw [translateHeaders_single_set]
        have hkey : key ≠ str "User-Agent" := by
          rcases hua with hkey | hpost
          · exact hkey
          · exact absurd rfl (hpost _ (List.mem_cons_self _ _))
        rw [if_neg hkey]
        exact hps
      · rw [translateHeaders_single_add k v hk]
        split
        · exact hps.trans (List.prefix_append _ _).isInfix
        · exact hps


theorem NewRequest_ok_header (method url : GoString) (body : List Byte) (req : Request)
    (hok : NewRequest method url body = .ok req) : req.Header = Header.empty := by
  unfold NewRequest at hok
  simp only at hok
  by_cases hm : validMethod (if method = [] then str "GET" else method) = true
  · simp only [hm, Bool.not_true, Bool.false_eq_true, if_false] at hok
    cases hp : Parse url with
    | none =>
      rw [hp] at hok
      cases hok
    | some u =>
      rw [hp] at hok
      cases hok
      rfl
  · simp only [hm, Bool.not_false, if_true] at hok
    cases hok

theorem RequestForEvent_ok_header (lib : Stdlib) (e : APIGatewayV2HTTPRequest) (req : Request)
    (hok : RequestForEvent lib e = .ok req) :
    req.Header = translateHeaders e.Headers Header.empty := by
  unfold RequestForEvent at hok
  split at hok
  · cases hok
  · simp only at hok
    split at hok
    · cases hok
    · rename_i r hr
      cases hok
      simp [NewRequest_ok_header _ _ _ r hr]

/-- C2, as amended: on an event on which `RequestForEvent` succeeds, a header
entry `(k, v)` with `k` other than `User-Agent` has `v` split on `,`, each
piece trimmed of spaces, and the trimmed pieces, in order and next to each
other, are among the request's values for the name `k`, provided `k` does not
canonicalise to `User-Agent` or no entry named exactly `User-Agent` is
visited after `(k, v)`. -/
theorem RequestForEvent_adds_pieces (lib : Stdlib) (e : APIGatewayV2HTTPRequest) (req : Request)
    (pre post : List (GoString × GoString)) (k v : GoString)
    (hok : RequestForEvent lib e = .ok req)
    (hentry : e.Headers = pre ++ (k, v) :: post)
    (hk : k ≠ str "User-Agent")
    (hua : CanonicalMIMEHeaderKey k ≠ str "User-Agent" ∨ ∀ kv ∈ post, kv.1 ≠ str "User-Agent") :
    (Split v (ch ',')).map (fun val => Trim val (ch ' ')) <:+: req.Header.Values k ∧
    ∀ p ∈ (Split v (ch ',')).map (fun val => Trim val (ch ' ')), p ∈ req.Header.Values k := by
  have hinf : (Split v (ch ',')).map (fun val => Trim val (ch ' ')) <:+: req.Header.Values k := by
    rw [RequestForEvent_ok_header lib e req hok, hentry, translateHeaders_append,
      translateHeaders_cons, Header.Values]
    apply translateHeaders_infix _ _ _ _ hua
    rw [translateHeaders_single_add k v hk, if_pos rfl]
    exact (List.suffix_append _ _).isInfix
  exact ⟨hinf, fun p hp => hinf.subset hp⟩

theorem RequestForEvent_adds_pieces_witness :
    ∃ req, RequestForEvent exampleLib acceptEvent = .ok req ∧
      [str "text/html", str "application/json", str "*/*"] <:+: req.Header.Values (str "Accept") :=
  ⟨_, rfl,
    (RequestForEvent_adds_pieces exampleLib acceptEvent _ []
      [(str "User-Agent", str "Mozilla/5.0 (X11; Linux x86_64), like Gecko")]
      (str "Accept") (str "text/html, application/json ,*/*") rfl rfl (by decide)
      (Or.inl (by decide))).1⟩

/-- C2 fails as stated: with the headers `user-agent: a, b` and
`User-Agent: x,y` visited in this order, reconstruction succeeds and the
trimmed pieces `a` and `b` of the entry `user-agent` are not among the
request's values for `user-agent`, which are `x,y` alone. -/
theorem RequestForEvent_pieces_replaced_counterexample :
    ∃ req, RequestForEvent exampleLib lowerFirstEvent = .ok req ∧
      (str "user-agent", str "a, b") ∈ lowerFirstEvent.Headers ∧
      str "user-agent" ≠ str "User-Agent" ∧
      (Split (str "a, b") (ch ',')).map (fun val => Trim val (ch ' ')) = [str "a", str "b"] ∧
      req.Header.Values (str "user-agent") = [str "x,y"] ∧
      str "a" ∉ req.Header.Values (str "user-agent") :=
  ⟨_, rfl, by decide, by decide, by decide, by decide, by decide⟩

/-- C3, as amended: on an event on which `RequestForEvent` succeeds and whose
headers have the entry `User-Agent` with value `v`, the request's `User-Agent`
header has exactly the one value `v`, not split and not trimmed, provided no
entry visited after it has a name that canonicalises to `User-Agent`. -/
theorem RequestForEvent_userAgent_verbatim (lib : Stdlib) (e : APIGatewayV2HTTPRequest)
    (req : Request) (pre post : List (GoString × GoString)) (v : GoString)
    (hok : RequestForEvent lib e = .ok req)
    (hentry : e.Headers = pre ++ (str "User-Agent", v) :: post)
    (hpost : ∀ kv ∈ post, CanonicalMIMEHeaderKey kv.1 ≠ str "User-Agent") :
    req.Header.Values (str "User-Agent") = [v] ∧ req.Header.Get (str "User-Agent") = v := by
  have hv : req.Header.index (str "User-Agent") = [v] := by
    rw [RequestForEvent_ok_header lib e req hok, hentry, translateHeaders_append,
      translateHeaders_cons, translateHeaders_other post _ _ hpost,
      translateHeaders_single_set, if_pos rfl]
  constructor
  · rw [Header.Values, CanonicalMIMEHeaderKey_userAgent, hv]
  · rw [Header.Get, CanonicalMIMEHeaderKey_userAgent, hv]

theorem RequestForEvent_userAgent_verbatim_witness :
    ∃ req, RequestForEvent exampleLib acceptEvent = .ok req ∧
      (∀ kv ∈ ([] : List (GoString × GoString)), CanonicalMIMEHeaderKey kv.1 ≠ str "User-Agent") ∧
      req.Header.Values (str "User-Agent") = [str "Mozilla/5.0 (X11; Linux x86_64), like Gecko"] :=
  ⟨_, rfl, fun _ h => absurd h (List.not_mem_nil _),
    (RequestForEvent_userAgent_verbatim exampleLib acceptEvent _
      [(str "Accept", str "text/html, application/json ,*/*")] []
      (str "Mozilla/5.0 (X11; Linux x86_64), like Gecko") rfl rfl
      (fun _ h => absurd h (List.not_mem_nil _))).1⟩

/-- C3 fails as stated: with the headers `User-Agent: x,y` and
`user-agent: a, b` visited in this order, reconstruction succeeds and the
request's `User-Agent` header has three values. -/
theorem RequestForEvent_userAgent_extra_counterexample :
    ∃ req, RequestForEvent exampleLib lowerLastEvent = .ok req ∧
      (str "User-Agent", str "x,y") ∈ lowerLastEvent.Headers ∧
      req.Header.Values (str "User-Agent") = [str "x,y", str "a", str "b"] :=
  ⟨_, rfl, by decide, by decide⟩

/-- C4: `RequestForEvent` succeeds on the example event (method GET, raw path
`/foo/bar`, raw query `baz=1`, header `X-Forwarded-Port: 3000`, empty domain
name, source address `127.0.0.1`, not base64) and on the event of the test
file: it returns a request whose URL is `https://localhost:3000/foo/bar?baz=1`,
whose method is GET and whose remote address is `127.0.0.1`. -/
theorem RequestForEvent_example (lib : Stdlib) :
    (∃ req, RequestForEvent lib exampleEvent = .ok req ∧
      req.URL = { Scheme := str "https", Host := str "localhost:3000", Path := str "/foo/bar",
                  RawQuery := str "baz=1" } ∧
      req.URL.String = str "https://localhost:3000/foo/bar?baz=1" ∧
      req.RequestURI = str "https://localhost:3000/foo/bar?baz=1" ∧
      req.Method = str "GET" ∧ req.RemoteAddr = str "127.0.0.1") ∧
    (∃ req, RequestForEvent lib exampleEventV2 = .ok req ∧
      req.URL.String = str "https://localhost:3000/foo/bar?baz=1" ∧
      req.Method = str "GET" ∧ req.RemoteAddr = str "127.0.0.1") := by
  have h1 : RequestForEvent lib exampleEvent = RequestForEvent exampleLib exampleEvent := rfl
  have h2 : RequestForEvent lib exampleEventV2 = RequestForEvent exampleLib exampleEventV2 := rfl
  rw [h1, h2]
  exact ⟨⟨_, rfl, by decide, by decide, by decide, by decide, by decide⟩,
    ⟨_, rfl, by decide, by decide, by decide⟩⟩

/-- C5: on an event flagged as base64 whose body the standard decoder
rejects, `RequestForEvent` fails with the decoder's error, and the adapter,
for every wrapped handler, returns that error with the fixed fallback payload
(status 500, `Content-Type: application/json`, body `{"errorCode":"500"}`, not
base64), which does not depend on the handler: the handler is not run. -/
theorem Handler_invalid_base64 (lib : Stdlib) (handler : HttpHandler)
    (e : APIGatewayV2HTTPRequest) (err : Error)
    (hflag : e.IsBase64Encoded = true) (hbad : DecodeString e.Body = .error err) :
    RequestForEvent lib e = .error err ∧
    Handler lib handler e = (InternalServerErrorResponse, some err) ∧
    InternalServerErrorResponse.StatusCode = 500 ∧
    (∀ k, InternalServerErrorResponse.MultiValueHeaders k =
      if k = str "Content-Type" then some [str "application/json"] else none) ∧
    InternalServerErrorResponse.Body = str "\x7b\"errorCode\":\"500\"\x7d" ∧
    InternalServerErrorResponse.IsBase64Encoded = false := by
  have hr : RequestForEvent lib e = .error err := by
    simp [RequestForEvent, hflag, hbad]
  refine ⟨hr, ?_, rfl, fun _ => rfl, rfl, rfl⟩
  simp [Handler, hr]

theorem Handler_invalid_base64_witness :
    badBodyEvent.IsBase64Encoded = true ∧
    DecodeString badBodyEvent.Body = .error Error.corruptInput ∧
    RequestForEvent exampleLib badBodyEvent = .error Error.corruptInput ∧
    Handler exampleLib (fun _ => [Op.writeHeader 200, Op.write (str "ok")]) badBodyEvent
      = (InternalServerErrorResponse, some Error.corruptInput) :=
  have h := Handler_invalid_base64 exampleLib
    (fun _ => [Op.writeHeader 200, Op.write (str "ok")]) badBodyEvent Error.corruptInput
    (by decide) (by decide)
  ⟨by decide, by decide, h.1, h.2.1⟩

/-! ## Request reconstruction: what a successful call returns -/

theorem NewRequest_ok (method url : GoString) (body : List Byte) (req : Request)
    (hok : NewRequest method url body = .ok req) :
    ∃ u, Parse url = some u ∧
      validMethod (if method = [] then str "GET" else method) = true ∧
      req = { Method := if method = [] then str "GET" else method,
              URL := { u with Host := removeEmptyPort u.Host },
              Header := Header.empty, Body := body, Host := removeEmptyPort u.Host,
              RemoteAddr := [], RequestURI := [] } := by
  unfold NewRequest at hok
  simp only at hok
  by_cases hm : validMethod (if method = [] then str "GET" else method) = true
  · simp only [hm, Bool.not_true, Bool.false_eq_true, if_false] at hok
    cases hp : Parse url with
    | none =>
      rw [hp] at hok
      cases hok
    | some u =>
      rw [hp] at hok
      cases hok
      exact ⟨u, rfl, hm, rfl⟩
  · simp only [hm, Bool.not_false, if_true] at hok
    cases hok

theorem NewRequest_of_parse (method url : GoString) (body : List Byte) (u : URL)
    (hp : Parse url = some u)
    (hm : validMethod (if method = [] then str "GET" else method) = true) :
    NewRequest method url body =
      .ok { Method := if method = [] then str "GET" else method,
            URL := { u with Host := removeEmptyPort u.Host },
            Header := Header.empty, Body := body, Host := removeEmptyPort u.Host,
            RemoteAddr := [], RequestURI := [] } := by
  unfold NewRequest
  simp only [hm, hp, Bool.not_true, Bool.false_eq_true, if_false]

theorem RequestForEvent_ok (lib : Stdlib) (e : APIGatewayV2HTTPRequest) (req : Request)
    (hok : RequestForEvent lib e = .ok req) :
    ∃ body u,
      (if e.IsBase64Encoded then DecodeString e.Body else .ok e.Body) = .ok body ∧
      Parse (eventURI e).String = some u ∧
      req = { Method :=
                if ToUpper lib.mapUnicodeToUpper e.RequestContext.HTTP.Method = [] then str "GET"
                else ToUpper lib.mapUnicodeToUpper e.RequestContext.HTTP.Method,
              URL := { u with Host := removeEmptyPort u.Host },
              Header := translateHeaders e.Headers Header.empty,
              Body := body, Host := removeEmptyPort u.Host,
              RemoteAddr := e.RequestContext.HTTP.SourceIP,
              RequestURI := (eventURI e).String } := by
  unfold RequestForEvent at hok
  split at hok
  · cases hok
  · rename_i body hbody
    simp only at hok
    split at hok
    · cases hok
    · rename_i r hr
      obtain ⟨u, hp, _, hreq⟩ := NewRequest_ok _ _ _ r hr
      cases hok
      exact ⟨body, u, hbody, hp, by rw [hreq]⟩

/-! ## Request reconstruction: method and body -/

theorem ToUpper_ascii (f : GoString → GoString) (s : GoString)
    (h : s.all (fun c => c.val < 0x80) = true) :
    ToUpper f s =
      s.map (fun c => if 97 ≤ c.val ∧ c.val ≤ 122 then Fin.ofNat (c.val - 32) else c) := by
  unfold ToUpper
  rw [if_pos h]

/-- C11, as amended: on an event on which `RequestForEvent` succeeds, the
request's method is the event's method converted to upper case by
`strings.ToUpper` whenever that is not the empty string, whatever the original
casing (for an ASCII method: its letters `a`-`z` mapped to `A`-`Z`); when the
event's method is empty, the request's method is `GET`. -/
theorem RequestForEvent_method (lib : Stdlib) (e : APIGatewayV2HTTPRequest) (req : Request)
    (hok : RequestForEvent lib e = .ok req) :
    (ToUpper lib.mapUnicodeToUpper e.RequestContext.HTTP.Method ≠ [] →
      req.Method = ToUpper lib.mapUnicodeToUpper e.RequestContext.HTTP.Method) ∧
    (e.RequestContext.HTTP.Method ≠ [] →
      e.RequestContext.HTTP.Method.all (fun c => c.val < 0x80) = true →
      req.Method = e.RequestContext.HTTP.Method.map
        (fun c => if 97 ≤ c.val ∧ c.val ≤ 122 then Fin.ofNat (c.val - 32) else c)) ∧
    (e.RequestContext.HTTP.Method = [] → req.Method = str "GET") := by
  obtain ⟨body, u, _, _, hreq⟩ := RequestForEvent_ok lib e req hok
  have hm : req.Method =
      if ToUpper lib.mapUnicodeToUpper e.RequestContext.HTTP.Method = [] then str "GET"
      else ToUpper lib.mapUnicodeToUpper e.RequestContext.HTTP.Method := by
    rw [hreq]
  refine ⟨fun hne => by rw [hm, if_neg hne], ?_, ?_⟩
  · intro hne hascii
    rw [hm, ToUpper_ascii _ _ hascii, if_neg]
    simpa using hne
  · intro hempty
    rw [hm, hempty, if_pos]
    rfl

theorem RequestForEvent_method_witness :
    ∃ req, RequestForEvent exampleLib mixedCaseEvent = .ok req ∧ req.Method = str "PATCH" :=
  ⟨_, rfl,
    ((RequestForEvent_method exampleLib mixedCaseEvent _ rfl).2.1 (by decide)
      (by decide)).trans (by decide)⟩

/-- C11 fails as stated for the empty method: reconstruction succeeds and the
request's method is `GET`, while the upper-cased event method is empty. -/
theorem RequestForEvent_method_empty_counterexample :
    ∃ req, RequestForEvent exampleLib emptyMethodEvent = .ok req ∧
      emptyMethodEvent.RequestContext.HTTP.Method = str "" ∧
      ToUpper exampleLib.mapUnicodeToUpper emptyMethodEvent.RequestContext.HTTP.Method = str "" ∧
      req.Method = str "GET" ∧
      req.Method ≠ ToUpper exampleLib.mapUnicodeToUpper emptyMethodEvent.RequestContext.HTTP.Method :=
  ⟨_, rfl, by decide, by decide, by decide, by decide⟩

/-- C15: when the rest of the event is well-formed (`http.NewRequest` accepts
its method and URL), an event flagged as base64 whose body is the standard
encoding of `b` reconstructs to a request whose body is exactly `b`, and an
event not flagged as base64 reconstructs to a request whose body is exactly
the bytes of the event's body string, whatever they are. -/
theorem RequestForEvent_body (lib : Stdlib) (e : APIGatewayV2HTTPRequest) (b : List Byte)
    (r0 : Request)
    (hrest : NewRequest (ToUpper lib.mapUnicodeToUpper e.RequestContext.HTTP.Method)
      (eventURI e).String [] = .ok r0) :
    (∃ req, RequestForEvent lib { e with Body := EncodeToString b, IsBase64Encoded := true }
        = .ok req ∧ req.Body = b) ∧
    (∃ req, RequestForEvent lib { e with IsBase64Encoded := false } = .ok req ∧
        req.Body = e.Body) := by
  obtain ⟨u, hp, hm, _⟩ := NewRequest_ok _ _ _ r0 hrest
  have h1 : RequestForEvent lib { e with Body := EncodeToString b, IsBase64Encoded := true } =
      .ok { Method :=
              if ToUpper lib.mapUnicodeToUpper e.RequestContext.HTTP.Method = [] then str "GET"
              else ToUpper lib.mapUnicodeToUpper e.RequestContext.HTTP.Method,
            URL := { u with Host := removeEmptyPort u.Host },
            Header := translateHeaders e.Headers Header.empty,
            Body := b, Host := removeEmptyPort u.Host,
            RemoteAddr := e.RequestContext.HTTP.SourceIP,
            RequestURI := (eventURI e).String } := by
    unfold RequestForEvent
    simp only [if_true, DecodeString_EncodeToString]
    rw [show eventURI { e with Body := EncodeToString b, IsBase64Encoded := true } = eventURI e
      from rfl, NewRequest_of_parse _ _ b u hp hm]
  have h2 : RequestForEvent lib { e with IsBase64Encoded := false } =
      .ok { Method :=
              if ToUpper lib.mapUnicodeToUpper e.RequestContext.HTTP.Method = [] then str "GET"
              else ToUpper lib.mapUnicodeToUpper e.RequestContext.HTTP.Method,
            URL := { u with Host := removeEmptyPort u.Host },
            Header := translateHeaders e.Headers Header.empty,
            Body := e.Body, Host := removeEmptyPort u.Host,
            RemoteAddr := e.RequestContext.HTTP.SourceIP,
            RequestURI := (eventURI e).String } := by
    unfold RequestForEvent
    simp only [Bool.false_eq_true, if_false]
    rw [show eventURI { e with IsBase64Encoded := false } = eventURI e from rfl,
      NewRequest_of_parse _ _ e.Body u hp hm]
  exact ⟨⟨_, h1, rfl⟩, ⟨_, h2, rfl⟩⟩

theorem RequestForEvent_body_witness :
    (∃ r0, NewRequest
        (ToUpper exampleLib.mapUnicodeToUpper base64TextEvent.RequestContext.HTTP.Method)
        (eventURI base64TextEvent).String [] = .ok r0) ∧
    (∃ req, RequestForEvent exampleLib
        { base64TextEvent with Body := EncodeToString [0xFF, 0x41], IsBase64Encoded := true }
        = .ok req ∧ req.Body = [0xFF, 0x41]) ∧
    (∃ req, RequestForEvent exampleLib { base64TextEvent with IsBase64Encoded := false } = .ok req ∧
        req.Body = base64TextEvent.Body) :=
  ⟨⟨_, rfl⟩, RequestForEvent_body exampleLib base64TextEvent [0xFF, 0x41] _ rfl⟩

/-! ## The adapter -/

theorem run_status_untouched (lib : Stdlib) (ops : List Op)
    (hno : ∀ c, Op.writeHeader c ∉ ops) (hnw : ∀ b, Op.write b ∉ ops) (w : writer) :
    (w.run lib ops).status = w.status := by
  induction ops generalizing w with
  | nil => rfl
  | cons op ops ih =>
    have hno2 : ∀ c, Op.writeHeader c ∉ ops := fun c hc => hno c (List.mem_cons_of_mem _ hc)
    have hnw2 : ∀ b, Op.write b ∉ ops := fun b hb => hnw b (List.mem_cons_of_mem _ hb)
    rw [run_cons, ih hno2 hnw2]
    cases op with
    | header f => rfl
    | writeHeader c => exact absurd (List.mem_cons_self _ _) (hno c)
    | write b => exact absurd (List.mem_cons_self _ _) (hnw b)

/-- C16: on an event on which `RequestForEvent` succeeds with request `req`,
the adapter built from a handler returns exactly the result of finalizing the
capturer obtained by running the handler's operations for `req`, once, on a
fresh capturer (status unset, empty header map, empty body); if the handler
neither writes a body nor sets a status, that result is the status-not-set
error with the fixed 500 fallback payload. -/
theorem Handler_finalizes_handler_run (lib : Stdlib) (handler : HttpHandler)
    (e : APIGatewayV2HTTPRequest) (req : Request) (hok : RequestForEvent lib e = .ok req) :
    Handler lib handler e = (NewResponseWriter.run lib (handler req)).response ∧
    NewResponseWriter.status = defaultStatusCode ∧
    (∀ k, NewResponseWriter.headers k = none) ∧
    NewResponseWriter.body = [] ∧
    ((∀ c, Op.writeHeader c ∉ handler req) → (∀ b, Op.write b ∉ handler req) →
      Handler lib handler e = (InternalServerErrorResponse, some Error.statusNotSet)) := by
  have h : Handler lib handler e = (NewResponseWriter.run lib (handler req)).response := by
    simp [Handler, hok]
  refine ⟨h, rfl, fun _ => rfl, rfl, ?_⟩
  intro hno hnw
  rw [h]
  unfold writer.response
  rw [if_pos]
  rw [run_status_untouched lib _ hno hnw]
  rfl

theorem Handler_finalizes_handler_run_witness :
    ∃ req, RequestForEvent exampleLib exampleEvent = .ok req ∧
      Handler exampleLib (fun r => [Op.writeHeader 201, Op.write r.Method]) exampleEvent =
        (NewResponseWriter.run exampleLib [Op.writeHeader 201, Op.write req.Method]).response ∧
      (Handler exampleLib (fun r => [Op.writeHeader 201, Op.write r.Method]) exampleEvent).1.Body
        = str "GET" :=
  ⟨_, rfl,
    (Handler_finalizes_handler_run exampleLib (fun r => [Op.writeHeader 201, Op.write r.Method])
      exampleEvent _ rfl).1,
    by decide⟩

/-! ## The capturer: the body -/

theorem Write_body (lib : Stdlib) (w : writer) (b : List Byte) :
    (w.Write lib b).2 = b.length ∧ (w.Write lib b).1.body = w.body ++ b := by
  unfold writer.Write
  refine ⟨rfl, ?_⟩
  by_cases hs : w.status = defaultStatusCode <;> simp only [hs, if_true, if_false] <;>
    split <;> rfl

theorem response_of_set (w : writer) (hset : w.status ≠ defaultStatusCode) :
    w.response =
      ({ StatusCode := w.status, MultiValueHeaders := w.headers,
         Body := if utf8Valid w.body then w.body else EncodeToString w.body,
         IsBase64Encoded := !utf8Valid w.body }, none) := by
  unfold writer.response
  rw [if_neg hset]
  by_cases hv : utf8Valid w.body = true <;> simp [hv]

theorem run_writes_body (lib : Stdlib) (bs : List (List Byte)) (w : writer) :
    (w.run lib (bs.map Op.write)).body = w.body ++ bs.flatten := by
  induction bs generalizing w with
  | nil => simp [writer.run]
  | cons b bs ih =>
    rw [List.map_cons, run_cons, ih]
    simp [writer.step, (Write_body lib w b).2]

/-- C18: every body-write reports the length of its argument as the count
written (the error of `bytes.Buffer.Write` is always nil) and appends the
argument to the buffer; after the body-writes `b`, `bs...` on a fresh
capturer finalization succeeds with status 200 and encodes the concatenation
of all of them, validity as UTF-8 being decided on the whole: the literal
bytes when the concatenation is valid UTF-8, its base64 encoding otherwise.
The two bytes of `é` written one byte at a time finalize to the text itself
with `isBase64Encoded = false`, though neither chunk is valid UTF-8. -/
theorem Write_accumulates (lib : Stdlib) (b : List Byte) (bs : List (List Byte)) :
    (∀ (w : writer) (x : List Byte),
      (w.Write lib x).2 = x.length ∧ (w.Write lib x).1.body = w.body ++ x) ∧
    (NewResponseWriter.run lib ((b :: bs).map Op.write)).body = (b :: bs).flatten ∧
    (NewResponseWriter.run lib ((b :: bs).map Op.write)).response.2 = none ∧
    (NewResponseWriter.run lib ((b :: bs).map Op.write)).response.1.StatusCode = 200 ∧
    (NewResponseWriter.run lib ((b :: bs).map Op.write)).response.1.Body =
      (if utf8Valid (b :: bs).flatten then (b :: bs).flatten else EncodeToString (b :: bs).flatten) ∧
    (NewResponseWriter.run lib ((b :: bs).map Op.write)).response.1.IsBase64Encoded =
      !utf8Valid (b :: bs).flatten ∧
    utf8Valid [0xC3] = false ∧ utf8Valid [0xA9] = false ∧
    (NewResponseWriter.run lib [Op.write [0xC3], Op.write [0xA9]]).response.1.Body
      = [0xC3, 0xA9] ∧
    (NewResponseWriter.run lib [Op.write [0xC3], Op.write [0xA9]]).response.1.IsBase64Encoded
      = false := by
  have hgen : ∀ (c : List Byte) (cs : List (List Byte)),
      (NewResponseWriter.run lib ((c :: cs).map Op.write)).body = (c :: cs).flatten ∧
      (NewResponseWriter.run lib ((c :: cs).map Op.write)).response.2 = none ∧
      (NewResponseWriter.run lib ((c :: cs).map Op.write)).response.1.StatusCode = 200 ∧
      (NewResponseWriter.run lib ((c :: cs).map Op.write)).response.1.Body =
        (if utf8Valid (c :: cs).flatten then (c :: cs).flatten else EncodeToString (c :: cs).flatten) ∧
      (NewResponseWriter.run lib ((c :: cs).map Op.write)).response.1.IsBase64Encoded =
        !utf8Valid (c :: cs).flatten := by
    intro c cs
    have hbody : (NewResponseWriter.run lib ((c :: cs).map Op.write)).body
        = (c :: cs).flatten := by
      rw [run_writes_body]
      rfl
    have hst : (NewResponseWriter.run lib ((c :: cs).map Op.write)).status = StatusOK :=
      run_status_implicit lib _ (fun x hx => by simp at hx) ⟨c, by simp⟩ NewResponseWriter rfl
    have hset : (NewResponseWriter.run lib ((c :: cs).map Op.write)).status ≠ defaultStatusCode := by
      rw [hst]
      decide
    rw [response_of_set _ hset, hbody, hst]
    exact ⟨rfl, rfl, rfl, rfl, rfl⟩
  have hex := hgen [0xC3] [[0xA9]]
  refine ⟨Write_body lib, (hgen b bs).1, (hgen b bs).2.1, (hgen b bs).2.2.1, (hgen b bs).2.2.2.1,
    (hgen b bs).2.2.2.2, by decide, by decide, ?_, ?_⟩
  · exact hex.2.2.2.1.trans (by decide)
  · exact hex.2.2.2.2.trans (by decide)

/-! ## Request reconstruction: the order of the header map -/

theorem foldl_Add_update (k : GoString) (f : GoString → GoString) (p : GoString)
    (ps : List GoString) (h : Header) :
    (p :: ps).foldl (fun h val => h.Add k (f val)) h =
      Function.update h (CanonicalMIMEHeaderKey k)
        (some (h.index (CanonicalMIMEHeaderKey k) ++ (p :: ps).map f)) := by
  induction ps generalizing h p with
  | nil => rfl
  | cons q qs ih =>
    rw [List.foldl_cons, ih]
    simp [Header.Add, Header.index, Function.update_idem]

theorem foldl_Set_update (k v : GoString) (p : GoString) (ps : List GoString) (h : Header) :
    (p :: ps).foldl (fun h _ => h.Set k v) h =
      Function.update h (CanonicalMIMEHeaderKey k) (some [v]) := by
  induction ps generalizing h p with
  | nil => rfl
  | cons q qs ih =>
    rw [List.foldl_cons, ih]
    simp [Header.Set, Function.update_idem]

/-- One entry of the event's header map rebinds its canonical key only. -/
theorem translateHeaders_single (k v : GoString) (h : Header) :
    translateHeaders [(k, v)] h =
      Function.update h (CanonicalMIMEHeaderKey k)
        (some (if k = str "User-Agent" then [v]
          else h.index (CanonicalMIMEHeaderKey k) ++
            (Split v (ch ',')).map (fun val => Trim val (ch ' ')))) := by
  simp only [translateHeaders, List.foldl_cons, List.foldl_nil]
  cases hs : Split v (ch ',') with
  | nil => exact absurd hs (Split_ne_nil _ _)
  | cons p ps =>
    by_cases hk : k = str "User-Agent"
    · simp only [hk, if_true]
      exact foldl_Set_update _ _ p ps h
    · simp only [hk, if_false]
      exact foldl_Add_update k _ p ps h

theorem translateHeaders_single_comm (kv1 kv2 : GoString × GoString) (h : Header)
    (hne : CanonicalMIMEHeaderKey kv1.1 ≠ CanonicalMIMEHeaderKey kv2.1) :
    translateHeaders [kv2] (translateHeaders [kv1] h) =
      translateHeaders [kv1] (translateHeaders [kv2] h) := by
  obtain ⟨k1, v1⟩ := kv1
  obtain ⟨k2, v2⟩ := kv2
  simp only at hne
  rw [translateHeaders_single k1 v1 h, translateHeaders_single k2 v2 h,
    translateHeaders_single, translateHeaders_single]
  simp only [Header.index, Function.update_noteq hne, Function.update_noteq hne.symm]
  exact Function.update_comm hne _ _ _

theorem translateHeaders_foldl (hs : List (GoString × GoString)) (h : Header) :
    translateHeaders hs h = hs.foldl (fun h kv => translateHeaders [kv] h) h := by
  simp [translateHeaders]

theorem translateHeaders_perm (hs1 hs2 : List (GoString × GoString)) (hp : hs1.Perm hs2)
    (hnd : (hs1.map (fun kv => CanonicalMIMEHeaderKey kv.1)).Nodup) (h : Header) :
    translateHeaders hs1 h = translateHeaders hs2 h := by
  rw [translateHeaders_foldl, translateHeaders_foldl]
  apply hp.foldl_eq'
  intro x hx y hy z
  by_cases hxy : x = y
  · rw [hxy]
  · exact translateHeaders_single_comm x y z
      (fun hc => hxy (List.inj_on_of_nodup_map hnd hx hy hc))

theorem lookup_eq_none_of_not_mem (k : GoString) (l : List (GoString × GoString))
    (h : ∀ kv ∈ l, kv.1 ≠ k) : l.lookup k = none := by
  induction l with
  | nil => rfl
  | cons kv l ih =>
    obtain ⟨k2, v2⟩ := kv
    have hk : k ≠ k2 := fun hc => h (k2, v2) (List.mem_cons_self _ _) hc.symm
    simp only [List.lookup, beq_iff_eq, hk]
    rw [show (k == k2) = false from by simpa using hk]
    exact ih (fun kv hkv => h kv (List.mem_cons_of_mem _ hkv))

theorem lookup_of_mem (k v : GoString) (l : List (GoString × GoString))
    (hnd : (l.map Prod.fst).Nodup) (hm : (k, v) ∈ l) : l.lookup k = some v := by
  induction l with
  | nil => cases hm
  | cons kv l ih =>
    obtain ⟨k2, v2⟩ := kv
    rw [List.map_cons, List.nodup_cons] at hnd
    rcases List.mem_cons.mp hm with heq | hin
    · cases heq
      simp [List.lookup]
    · have hk : k ≠ k2 := by
        intro hc
        subst hc
        exact hnd.1 (List.mem_map.mpr ⟨(k, v), hin, rfl⟩)
      simp only [List.lookup]
      rw [show (k == k2) = false from by simpa using hk]
      exact ih hnd.2 hin

theorem mem_of_lookup (k v : GoString) (l : List (GoString × GoString))
    (h : l.lookup k = some v) : (k, v) ∈ l := by
  induction l with
  | nil => cases h
  | cons kv l ih =>
    obtain ⟨k2, v2⟩ := kv
    by_cases hk : k = k2
    · subst hk
      simp [List.lookup] at h
      rw [h]
      exact List.mem_cons_self _ _
    · simp only [List.lookup] at h
      rw [show (k == k2) = false from by simpa using hk] at h
      exact List.mem_cons_of_mem _ (ih h)

theorem lookup_perm (k : GoString) (l1 l2 : List (GoString × GoString)) (hp : l1.Perm l2)
    (hnd : (l1.map Prod.fst).Nodup) : l1.lookup k = l2.lookup k := by
  have hnd2 : (l2.map Prod.fst).Nodup := (hp.map Prod.fst).nodup_iff.mp hnd
  cases h1 : l1.lookup k with
  | none =>
    symm
    apply lookup_eq_none_of_not_mem
    intro kv hkv hc
    have hm : (k, kv.2) ∈ l1 := by
      rw [← hc]
      exact hp.symm.subset hkv
    rw [lookup_of_mem k kv.2 l1 hnd hm] at h1
    cases h1
  | some v => exact (lookup_of_mem k v l2 hnd2 (hp.subset (mem_of_lookup k v l1 h1))).symm

theorem eventURI_perm (e : APIGatewayV2HTTPRequest) (hs : List (GoString × GoString))
    (hp : hs.Perm e.Headers) (hnd : (e.Headers.map Prod.fst).Nodup) :
    eventURI { e with Headers := hs } = eventURI e := by
  have hl : hs.lookup (str "X-Forwarded-Port") = e.Headers.lookup (str "X-Forwarded-Port") :=
    (lookup_perm _ e.Headers hs hp.symm hnd).symm
  simp only [eventURI, hl]

/-- C19: when the names of the event's headers are pairwise distinct after
canonicalisation, visiting the header map in any other order gives the same
result of `RequestForEvent`, and in particular the same header map of the
reconstructed request. -/
theorem RequestForEvent_header_order (lib : Stdlib) (e : APIGatewayV2HTTPRequest)
    (hs : List (GoString × GoString)) (hp : hs.Perm e.Headers)
    (hnd : (e.Headers.map (fun kv => CanonicalMIMEHeaderKey kv.1)).Nodup) :
    RequestForEvent lib { e with Headers := hs } = RequestForEvent lib e ∧
    (∀ req req2, RequestForEvent lib e = .ok req →
      RequestForEvent lib { e with Headers := hs } = .ok req2 → req2.Header = req.Header) := by
  have hkeys : (e.Headers.map Prod.fst).Nodup := by
    have h2 : e.Headers.map (fun kv => CanonicalMIMEHeaderKey kv.1) =
        (e.Headers.map Prod.fst).map CanonicalMIMEHeaderKey := by
      rw [List.map_map]
      rfl
    rw [h2] at hnd
    exact List.Nodup.of_map _ hnd
  have hth : translateHeaders hs Header.empty = translateHeaders e.Headers Header.empty :=
    (translateHeaders_perm e.Headers hs hp.symm hnd Header.empty).symm
  have heq : RequestForEvent lib { e with Headers := hs } = RequestForEvent lib e := by
    unfold RequestForEvent
    simp only [eventURI_perm e hs hp hkeys]
    cases (if e.IsBase64Encoded = true then DecodeString e.Body else Except.ok e.Body) with
    | error err => rfl
    | ok body =>
      simp only
      cases hr : NewRequest (ToUpper lib.mapUnicodeToUpper e.RequestContext.HTTP.Method)
          (eventURI e).String body with
      | error err => rfl
      | ok req =>
        simp only
        rw [NewRequest_ok_header _ _ _ req hr, hth]
  refine ⟨heq, ?_⟩
  intro req req2 h1 h2
  rw [heq, h1] at h2
  cases h2
  rfl

theorem RequestForEvent_header_order_witness :
    exampleEventV2.Headers.reverse.Perm exampleEventV2.Headers ∧
    (exampleEventV2.Headers.map (fun kv => CanonicalMIMEHeaderKey kv.1)).Nodup ∧
    RequestForEvent exampleLib { exampleEventV2 with Headers := exampleEventV2.Headers.reverse } =
      RequestForEvent exampleLib exampleEventV2 :=
  ⟨List.reverse_perm _, by decide,
    (RequestForEvent_header_order exampleLib exampleEventV2 exampleEventV2.Headers.reverse
      (List.reverse_perm _) (by decide)).1⟩

/-! ## net/url: escaping and unescaping -/

theorem upperhex_facts (v : Nat) (hv : v < 16) :
    ishex (upperhex v) = true ∧ unhex (upperhex v) = v ∧
    upperhex v ≠ ch '%' ∧ upperhex v ≠ ch '/' ∧ upperhex v ≠ ch '?' ∧ upperhex v ≠ ch '#' ∧
    upperhex v ≠ ch '@' ∧ upperhex v ≠ ch ']' ∧ upperhex v ≠ ch '+' := by
  have h : ∀ u : Fin 16, ishex (upperhex u.val) = true ∧ unhex (upperhex u.val) = u.val ∧
      upperhex u.val ≠ ch '%' ∧ upperhex u.val ≠ ch '/' ∧ upperhex u.val ≠ ch '?' ∧
      upperhex u.val ≠ ch '#' ∧ upperhex u.val ≠ ch '@' ∧ upperhex u.val ≠ ch ']' ∧
      upperhex u.val ≠ ch '+' := by decide
  exact h ⟨v, hv⟩

theorem shouldEscape_host_special :
    shouldEscape (ch '%') .encodeHost = true ∧ shouldEscape (ch '/') .encodeHost = true ∧
    shouldEscape (ch '?') .encodeHost = true ∧ shouldEscape (ch '#') .encodeHost = true ∧
    shouldEscape (ch '@') .encodeHost = true := by decide

theorem shouldEscape_path_special :
    shouldEscape (ch '%') .encodePath = true ∧ shouldEscape (ch '?') .encodePath = true ∧
    shouldEscape (ch '#') .encodePath = true := by decide

theorem shouldEscape_query_special :
    shouldEscape (ch '%') .encodeQueryComponent = true ∧
    shouldEscape (ch '#') .encodeQueryComponent = true ∧
    shouldEscape (ch '+') .encodeQueryComponent = true ∧
    shouldEscape (ch '&') .encodeQueryComponent = true ∧
    shouldEscape (ch '=') .encodeQueryComponent = true := by decide

theorem byte_of_nibbles (c : Byte) : (Fin.ofNat (c.val / 16 * 16 + c.val % 16) : Byte) = c := by
  apply Fin.ext
  have := c.isLt
  simp [Fin.ofNat]
  omega

theorem escape_cons_raw (c : Byte) (rest : GoString) (mode : Encoding)
    (h : shouldEscape c mode = false) : escape (c :: rest) mode = c :: escape rest mode := by
  simp [escape, h]

theorem escape_cons_hex (c : Byte) (rest : GoString) (mode : Encoding)
    (h : shouldEscape c mode = true) (hm : mode ≠ .encodeQueryComponent) :
    escape (c :: rest) mode =
      ch '%' :: upperhex (c.val / 16) :: upperhex (c.val % 16) :: escape rest mode := by
  simp [escape, h, hm]

/-- No byte of an escaped host is `/`, `?`, `#` or `@`. -/
theorem escape_host_clean (h : GoString) :
    ∀ c ∈ escape h .encodeHost, c ≠ ch '/' ∧ c ≠ ch '?' ∧ c ≠ ch '#' ∧ c ≠ ch '@' := by
  induction h with
  | nil => intro c hc; cases hc
  | cons x rest ih =>
    intro c hc
    by_cases hx : shouldEscape x .encodeHost = true
    · rw [escape_cons_hex x rest _ hx (by decide)] at hc
      have h1 := upperhex_facts (x.val / 16) (by have := x.isLt; omega)
      have h2 := upperhex_facts (x.val % 16) (by omega)
      simp only [List.mem_cons] at hc
      rcases hc with rfl | rfl | rfl | hc
      · decide
      · exact ⟨h1.2.2.2.1, h1.2.2.2.2.1, h1.2.2.2.2.2.1, h1.2.2.2.2.2.2.1⟩
      · exact ⟨h2.2.2.2.1, h2.2.2.2.2.1, h2.2.2.2.2.2.1, h2.2.2.2.2.2.2.1⟩
      · exact ih c hc
    · have hx2 : shouldEscape x .encodeHost = false := by simpa using hx
      rw [escape_cons_raw x rest _ hx2] at hc
      rcases List.mem_cons.mp hc with rfl | hc
      · have hs := shouldEscape_host_special
        refine ⟨?_, ?_, ?_, ?_⟩ <;> intro hc2 <;> rw [hc2] at hx2 <;> simp [hs] at hx2
      · exact ih c hc

/-- No byte of an escaped path is `?` or `#`. -/
theorem escape_path_clean (p : GoString) :
    ∀ c ∈ escape p .encodePath, c ≠ ch '?' ∧ c ≠ ch '#' := by
  induction p with
  | nil => intro c hc; cases hc
  | cons x rest ih =>
    intro c hc
    by_cases hx : shouldEscape x .encodePath = true
    · rw [escape_cons_hex x rest _ hx (by decide)] at hc
      have h1 := upperhex_facts (x.val / 16) (by have := x.isLt; omega)
      have h2 := upperhex_facts (x.val % 16) (by omega)
      simp only [List.mem_cons] at hc
      rcases hc with rfl | rfl | rfl | hc
      · decide
      · exact ⟨h1.2.2.2.2.1, h1.2.2.2.2.2.1⟩
      · exact ⟨h2.2.2.2.2.1, h2.2.2.2.2.2.1⟩
      · exact ih c hc
    · have hx2 : shouldEscape x .encodePath = false := by simpa using hx
      rw [escape_cons_raw x rest _ hx2] at hc
      rcases List.mem_cons.mp hc with rfl | hc
      · have hs := shouldEscape_path_special
        refine ⟨?_, ?_⟩ <;> intro hc2 <;> rw [hc2] at hx2 <;> simp [hs] at hx2
      · exact ih c hc

theorem shouldEscape_percent (mode : Encoding) : shouldEscape (ch '%') mode = true := by
  cases mode <;> decide

theorem unescape_cons_hex (hi lo : Byte) (t : GoString) (mode : Encoding)
    (hhi : ishex hi = true) (hlo : ishex lo = true) :
    unescape (ch '%' :: hi :: lo :: t) mode =
      if mode = .encodeHost ∧ unhex hi < 8 ∧ ¬ (hi = ch '2' ∧ lo = ch '5') then none
      else if mode = .encodeZone ∧ ¬ (hi = ch '2' ∧ lo = ch '5') ∧
          unhex hi * 16 + unhex lo ≠ 32 ∧
          shouldEscape (Fin.ofNat (unhex hi * 16 + unhex lo)) .encodeHost then none
      else (unescape t mode).map (fun r => Fin.ofNat (unhex hi * 16 + unhex lo) :: r) := by
  rw [unescape]
  simp [hhi, hlo]

theorem unescape_cons_raw (c : Byte) (t : GoString) (mode : Encoding) (hc : c ≠ ch '%') :
    unescape (c :: t) mode =
      if c = ch '+' then
        (unescape t mode).map
          (fun r => (if mode = .encodeQueryComponent then ch ' ' else ch '+') :: r)
      else if (mode = .encodeHost ∨ mode = .encodeZone) ∧ c.val < 0x80 ∧
          shouldEscape c .encodeHost then none
      else (unescape t mode).map (fun r => c :: r) := by
  cases t with
  | nil => simp [unescape, hc]
  | cons a t2 =>
    cases t2 with
    | nil => simp [unescape, hc]
    | cons b t3 => simp [unescape, hc]

/-- Unescaping, in a mode other than the query mode, what `escape` produced in
a mode other than the query mode gives back the original text whenever it
succeeds. -/
theorem unescape_escape_eq (m1 m2 : Encoding) (hm1 : m1 ≠ .encodeQueryComponent)
    (hm2 : m2 ≠ .encodeQueryComponent) (x y : GoString)
    (h : unescape (escape x m1) m2 = some y) : y = x := by
  induction x generalizing y with
  | nil =>
    simp [escape, unescape] at h
    exact h
  | cons c t ih =>
    by_cases hc : shouldEscape c m1 = true
    · rw [escape_cons_hex c t m1 hc hm1] at h
      have h1 := upperhex_facts (c.val / 16) (by have := c.isLt; omega)
      have h2 := upperhex_facts (c.val % 16) (by omega)
      rw [unescape_cons_hex _ _ _ _ h1.1 h2.1, h1.2.1, h2.2.1, byte_of_nibbles] at h
      split at h
      · cases h
      · split at h
        · cases h
        · cases hu : unescape (escape t m1) m2 with
          | none => rw [hu] at h; cases h
          | some r =>
            rw [hu] at h
            simp only [Option.map_some', Option.some.injEq] at h
            rw [← h, ih r hu]
    · have hc2 : shouldEscape c m1 = false := by simpa using hc
      have hpct : c ≠ ch '%' := by
        intro hp
        rw [hp, shouldEscape_percent] at hc2
        cases hc2
      rw [escape_cons_raw c t m1 hc2, unescape_cons_raw c _ m2 hpct] at h
      split at h
      · rename_i hplus
        cases hu : unescape (escape t m1) m2 with
        | none => rw [hu] at h; cases h
        | some r =>
          rw [hu] at h
          simp only [Option.map_some', Option.some.injEq, hm2, if_false] at h
          rw [← h, ih r hu, hplus]
      · split at h
        · cases h
        · cases hu : unescape (escape t m1) m2 with
          | none => rw [hu] at h; cases h
          | some r =>
            rw [hu] at h
            simp only [Option.map_some', Option.some.injEq] at h
            rw [← h, ih r hu]

/-- A path survives `escape` followed by `unescape`. -/
theorem unescape_escape_path (p : GoString) :
    unescape (escape p .encodePath) .encodePath = some p := by
  induction p with
  | nil => simp [escape, unescape]
  | cons c t ih =>
    by_cases hc : shouldEscape c .encodePath = true
    · rw [escape_cons_hex c t _ hc (by decide)]
      have h1 := upperhex_facts (c.val / 16) (by have := c.isLt; omega)
      have h2 := upperhex_facts (c.val % 16) (by omega)
      rw [unescape_cons_hex _ _ _ _ h1.1 h2.1, h1.2.1, h2.2.1, byte_of_nibbles, ih]
      simp
    · have hc2 : shouldEscape c .encodePath = false := by simpa using hc
      have hpct : c ≠ ch '%' := by
        intro hp
        rw [hp, shouldEscape_percent] at hc2
        cases hc2
      rw [escape_cons_raw c t _ hc2, unescape_cons_raw c _ _ hpct, ih]
      by_cases hplus : c = ch '+'
      · simp [hplus]
      · simp [hplus]

/-! ## net/url: parsing the URL that `RequestForEvent` builds -/

theorem Cut_not_mem (a : GoString) (sep : Byte) (h : sep ∉ a) : Cut a sep = (a, [], false) := by
  induction a with
  | nil => rfl
  | cons c t ih =>
    have hc : c ≠ sep := fun hc => h (hc ▸ List.mem_cons_self _ _)
    have ht : sep ∉ t := fun ht => h (List.mem_cons_of_mem _ ht)
    simp [Cut, hc, ih ht]

theorem Cut_append (a b : GoString) (sep : Byte) (h : sep ∉ a) :
    Cut (a ++ b) sep = (a ++ (Cut b sep).1, (Cut b sep).2.1, (Cut b sep).2.2) := by
  induction a with
  | nil => rfl
  | cons c t ih =>
    have hc : c ≠ sep := fun hc => h (hc ▸ List.mem_cons_self _ _)
    have ht : sep ∉ t := fun ht => h (List.mem_cons_of_mem _ ht)
    simp [Cut, hc, ih ht]

theorem Cut_cons_sep (b : GoString) (sep : Byte) : Cut (sep :: b) sep = ([], b, true) := by
  simp [Cut]

theorem getScheme_https (x : GoString) :
    getScheme (str "https://" ++ x) = some (str "https", str "//" ++ x) := rfl

theorem String_https (host p q : GoString) :
    URL.String { Scheme := str "https", Host := host, Path := ch '/' :: p, RawQuery := q } =
      str "https://" ++ escape host .encodeHost ++ escape (ch '/' :: p) .encodePath ++
        (if q ≠ [] then ch '?' :: q else []) := by
  have hs : str "https" ≠ [] := by decide
  have hstar : ch '/' :: p ≠ str "*" := by
    intro h
    have h2 : some (ch '/') = some (ch '*') := congrArg List.head? h
    exact absurd (Option.some.inj h2) (by decide)
  have hesc : escape (ch '/' :: p) .encodePath = ch '/' :: escape p .encodePath :=
    escape_cons_raw _ _ _ (by decide)
  have he : (if ¬host = [] then
      str "https" ++ (str ":" ++ (str "//" ++ escape host .encodeHost))
      else str "https" ++ (str ":" ++ str "//")) = str "https://" ++ escape host .encodeHost := by
    by_cases hh : host = []
    · subst hh
      simp [escape]
      decide
    · simp only [hh, not_false_eq_true, if_true]
      rfl
  have hne : str "https://" ++ escape host .encodeHost ≠ [] := by
    intro h
    have h2 : str "https://" = [] := (List.append_eq_nil.mp h).1
    exact absurd h2 (by decide)
  have hq : str "?" = [ch '?'] := by decide
  unfold URL.String URL.EscapedPath
  simp only [hs, hstar, hesc, ne_eq, not_false_eq_true, if_true, if_false, true_or, or_true,
    not_true_eq_false, false_and, and_false, Option.isSome_none, Option.isNone_none,
    Bool.false_eq_true, List.cons_ne_nil, List.head?_cons, and_true, false_or,
    List.append_eq_nil, List.append_assoc, reduceCtorEq]
  rw [he]
  simp only [hne, false_and, if_false, hq]
  by_cases hqe : q = [] <;> simp [hqe]

theorem LastIndex_not_mem (a : GoString) (sep : Byte) (h : sep ∉ a) : LastIndex a sep = none := by
  induction a with
  | nil => rfl
  | cons c t ih =>
    have hc : c ≠ sep := fun hc => h (hc ▸ List.mem_cons_self _ _)
    have ht : sep ∉ t := fun ht => h (List.mem_cons_of_mem _ ht)
    simp [LastIndex, hc, ih ht]

theorem indexOf_append_cons (a b : GoString) (sep : Byte) (h : sep ∉ a) :
    (a ++ sep :: b).indexOf? sep = some a.length := by
  induction a with
  | nil => simp [List.indexOf?]
  | cons c t ih =>
    have hc : c ≠ sep := fun hc => h (hc ▸ List.mem_cons_self _ _)
    have ht : sep ∉ t := fun ht => h (List.mem_cons_of_mem _ ht)
    have ih2 := ih ht
    simp only [List.indexOf?] at ih2 ⊢
    simp [List.findIdx?_cons, hc, List.findIdx?_succ, ih2]

theorem count_eq_zero_of_not_mem (a : GoString) (sep : Byte) (h : sep ∉ a) :
    a.count sep = 0 := List.count_eq_zero_of_not_mem h

theorem parse_https_noquery (eh ep : GoString)
    (heh : ∀ c ∈ eh, c ≠ ch '/' ∧ c ≠ ch '?' ∧ c ≠ ch '#' ∧ c ≠ ch '@')
    (hep : ∀ c ∈ ep, c ≠ ch '?' ∧ c ≠ ch '#')
    (hctl : stringContainsCTLByte (str "https://" ++ (eh ++ (ch '/' :: ep))) = false) :
    parse (str "https://" ++ (eh ++ (ch '/' :: ep))) =
      match parseHost eh with
      | none => none
      | some host =>
        URL.setPath { Scheme := str "https", Host := host } (ch '/' :: ep) := by
  have hnq : ch '?' ∉ str "//" ++ (eh ++ (ch '/' :: ep)) := by
    intro hm
    simp only [List.mem_append, List.mem_cons] at hm
    rcases hm with hm | hm | hm | hm
    · revert hm; decide
    · exact (heh _ hm).2.1 rfl
    · revert hm; decide
    · exact (hep _ hm).1 rfl
  have hstar : str "https://" ++ (eh ++ (ch '/' :: ep)) ≠ str "*" := by
    intro h
    have h2 : some (ch 'h') = some (ch '*') := congrArg List.head? h
    exact absurd (Option.some.inj h2) (by decide)
  have hlow : asciiLower (str "https") = str "https" := by decide
  have hsn : str "https" ≠ [] := by decide
  have hsw : startsWith (str "//" ++ (eh ++ (ch '/' :: ep))) (str "/") = true := rfl
  have hsw2 : startsWith (str "//" ++ (eh ++ (ch '/' :: ep))) (str "//") = true := by
    simp [startsWith]
  have hdrop : (str "//" ++ (eh ++ (ch '/' :: ep))).drop 2 = eh ++ (ch '/' :: ep) := rfl
  have hidx : (eh ++ (ch '/' :: ep)).indexOf? (ch '/') = some eh.length :=
    indexOf_append_cons eh ep _ (fun hm => (heh _ hm).1 rfl)
  have hat : LastIndex eh (ch '@') = none :=
    LastIndex_not_mem eh _ (fun hm => (heh _ hm).2.2.2 rfl)
  unfold parse
  rw [getScheme_https, if_neg (by rw [hctl]; decide), if_neg hstar]
  simp only [count_eq_zero_of_not_mem _ _ hnq, Cut_not_mem _ _ hnq, hlow, hsn, hsw, hsw2, hdrop,
    hidx, and_false, if_false, Bool.not_true, Bool.false_eq_true, false_and, ne_eq,
    not_false_eq_true, true_or, and_self, if_true, List.take_left', List.drop_left',
    parseAuthority, hat, zero_ne_one]
  cases parseHost eh <;> rfl

theorem parse_https_query (eh ep q1 : GoString)
    (heh : ∀ c ∈ eh, c ≠ ch '/' ∧ c ≠ ch '?' ∧ c ≠ ch '#' ∧ c ≠ ch '@')
    (hep : ∀ c ∈ ep, c ≠ ch '?' ∧ c ≠ ch '#')
    (hctl : stringContainsCTLByte
      (str "https://" ++ (eh ++ (ch '/' :: (ep ++ (ch '?' :: q1))))) = false) :
    parse (str "https://" ++ (eh ++ (ch '/' :: (ep ++ (ch '?' :: q1))))) =
      match parseHost eh with
      | none => none
      | some host =>
        URL.setPath { Scheme := str "https", Host := host, RawQuery := q1,
                      ForceQuery := decide (q1 = []) } (ch '/' :: ep) := by
  have hnq : ch '?' ∉ str "//" ++ (eh ++ (ch '/' :: ep)) := by
    intro hm
    simp only [List.mem_append, List.mem_cons] at hm
    rcases hm with hm | hm | hm | hm
    · revert hm; decide
    · exact (heh _ hm).2.1 rfl
    · revert hm; decide
    · exact (hep _ hm).1 rfl
  have hR : str "//" ++ (eh ++ (ch '/' :: (ep ++ (ch '?' :: q1)))) =
      (str "//" ++ (eh ++ (ch '/' :: ep))) ++ (ch '?' :: q1) := by simp
  have hstar : str "https://" ++ (eh ++ (ch '/' :: (ep ++ (ch '?' :: q1)))) ≠ str "*" := by
    intro h
    have h2 : some (ch 'h') = some (ch '*') := congrArg List.head? h
    exact absurd (Option.some.inj h2) (by decide)
  have hlow : asciiLower (str "https") = str "https" := by decide
  have hsn : str "https" ≠ [] := by decide
  have hsw : startsWith (str "//" ++ (eh ++ (ch '/' :: ep))) (str "/") = true := rfl
  have hsw2 : startsWith (str "//" ++ (eh ++ (ch '/' :: ep))) (str "//") = true := by
    simp [startsWith]
  have hdrop : (str "//" ++ (eh ++ (ch '/' :: ep))).drop 2 = eh ++ (ch '/' :: ep) := rfl
  have hidx : (eh ++ (ch '/' :: ep)).indexOf? (ch '/') = some eh.length :=
    indexOf_append_cons eh ep _ (fun hm => (heh _ hm).1 rfl)
  have hat : LastIndex eh (ch '@') = none :=
    LastIndex_not_mem eh _ (fun hm => (heh _ hm).2.2.2 rfl)
  have hcut : Cut ((str "//" ++ (eh ++ (ch '/' :: ep))) ++ (ch '?' :: q1)) (ch '?') =
      (str "//" ++ (eh ++ (ch '/' :: ep)), q1, true) := by
    rw [Cut_append _ _ _ hnq, Cut_cons_sep]
    simp
  have hcount : ((str "//" ++ (eh ++ (ch '/' :: ep))) ++ (ch '?' :: q1)).count (ch '?') =
      1 + q1.count (ch '?') := by
    rw [List.count_append, count_eq_zero_of_not_mem _ _ hnq, List.count_cons_self]
    omega
  unfold parse
  rw [getScheme_https, if_neg (by rw [hctl]; decide), if_neg hstar, hR]
  by_cases hq : q1 = []
  · subst hq
    have hlast : ((str "//" ++ (eh ++ (ch '/' :: ep))) ++ [ch '?']).getLast? = some (ch '?') := by
      rw [List.getLast?_append_of_ne_nil _ (by simp)]
      rfl
    have hdl : ((str "//" ++ (eh ++ (ch '/' :: ep))) ++ [ch '?']).dropLast =
        str "//" ++ (eh ++ (ch '/' :: ep)) := List.dropLast_concat
    simp only [hlast, hcount, hdl, List.count_nil, hlow, hsn, hsw, hsw2, hdrop,
      hidx, and_false, if_false, Bool.not_true, Bool.false_eq_true, false_and, ne_eq,
      not_false_eq_true, true_or, and_self, if_true, List.take_left', List.drop_left',
      parseAuthority, hat, decide_True]
    cases parseHost eh <;> rfl
  · have hcond : ¬ (((str "//" ++ (eh ++ (ch '/' :: ep))) ++ (ch '?' :: q1)).getLast? =
        some (ch '?') ∧
        ((str "//" ++ (eh ++ (ch '/' :: ep))) ++ (ch '?' :: q1)).count (ch '?') = 1) := by
      rintro ⟨hl, hc⟩
      rw [hcount] at hc
      have hz : q1.count (ch '?') = 0 := by omega
      have hnm : ch '?' ∉ q1 := List.count_eq_zero.mp hz
      apply hnm
      have hl2 : (ch '?' :: q1).getLast? = some (ch '?') := by
        rw [List.getLast?_append_of_ne_nil _ (by simp)] at hl
        exact hl
      cases q1 with
      | nil => exact absurd rfl hq
      | cons c q2 =>
        rw [List.getLast?_cons_cons] at hl2
        exact List.mem_of_getLast?_eq_some hl2
    simp only [hcond, hcut, hlow, hsn, hsw, hsw2, hdrop, hq,
      hidx, and_false, if_false, Bool.not_true, Bool.false_eq_true, false_and, ne_eq,
      not_false_eq_true, true_or, and_self, if_true, List.take_left', List.drop_left',
      parseAuthority, hat, decide_False]
    cases parseHost eh <;> rfl

theorem parse_ctl (x : GoString) (h : stringContainsCTLByte x = true) : parse x = none := by
  unfold parse
  rw [if_pos h]

theorem setPath_escaped (u : URL) (p : GoString) :
    u.setPath (escape p .encodePath) = some { u with Path := p, RawPath := [] } := by
  unfold URL.setPath
  rw [unescape_escape_path]
  simp

theorem setFragment_fields (u v : URL) (f : GoString) (h : u.setFragment f = some v) :
    v.Scheme = u.Scheme ∧ v.Host = u.Host ∧ v.Path = u.Path ∧ v.RawQuery = u.RawQuery ∧
    v.ForceQuery = u.ForceQuery ∧ v.Opaque = u.Opaque ∧ v.User = u.User ∧
    v.RawPath = u.RawPath := by
  unfold URL.setFragment at h
  cases hf : unescape f .encodeFragment with
  | none => rw [hf] at h; cases h
  | some frag =>
    rw [hf] at h
    cases h
    exact ⟨rfl, rfl, rfl, rfl, rfl, rfl, rfl, rfl⟩

/-- What `url.Parse` returns, when it succeeds, on the text of a URL with
scheme `https`, a host, a path that starts with `/` and a raw query: the path
comes back as it was, the query is the raw query up to its first `#`, and the
host is what `parseHost` makes of the escaped host. -/
theorem Parse_String_https (host p q : GoString) (u : URL)
    (h : Parse (URL.String
      { Scheme := str "https", Host := host, Path := ch '/' :: p, RawQuery := q }) = some u) :
    u.Scheme = str "https" ∧ u.Path = ch '/' :: p ∧ u.RawQuery = (Cut q (ch '#')).1 ∧
    parseHost (escape host .encodeHost) = some u.Host ∧
    (q = [] → u.ForceQuery = false) ∧ u.Opaque = [] ∧ u.User = none ∧ u.RawPath = [] := by
  have heh := escape_host_clean host
  have hep := escape_path_clean p
  have hesc : escape (ch '/' :: p) .encodePath = ch '/' :: escape p .encodePath :=
    escape_cons_raw _ _ _ (by decide)
  have hpre : ch '#' ∉ str "https://" ++ (escape host .encodeHost ++
      (ch '/' :: escape p .encodePath)) := by
    intro hm
    simp only [List.mem_append, List.mem_cons] at hm
    rcases hm with hm | hm | hm | hm
    · revert hm; decide
    · exact (heh _ hm).2.2.1 rfl
    · revert hm; decide
    · exact (hep _ hm).2 rfl
  rw [String_https, hesc] at h
  unfold Parse at h
  by_cases hq : q = []
  · subst hq
    simp only [ne_eq, not_true_eq_false, if_false, List.append_nil, List.append_assoc] at h
    rw [Cut_not_mem _ _ hpre] at h
    simp only [if_true] at h
    by_cases hctl : stringContainsCTLByte (str "https://" ++ (escape host .encodeHost ++
        (ch '/' :: escape p .encodePath))) = true
    · rw [parse_ctl _ hctl] at h
      cases h
    · rw [parse_https_noquery _ _ heh hep (by simpa using hctl)] at h
      cases hh : parseHost (escape host .encodeHost) with
      | none => rw [hh] at h; cases h
      | some hst =>
        rw [hh] at h
        simp only at h
        rw [← hesc, setPath_escaped] at h
        simp only at h
        cases h
        exact ⟨rfl, rfl, rfl, rfl, fun _ => rfl, rfl, rfl, rfl⟩
  · have hs : str "https://" ++ escape host .encodeHost ++ (ch '/' :: escape p .encodePath) ++
        (if q ≠ [] then ch '?' :: q else []) =
        (str "https://" ++ (escape host .encodeHost ++ (ch '/' :: escape p .encodePath)) ++
          [ch '?']) ++ q := by
      simp [hq]
    have hpre2 : ch '#' ∉ str "https://" ++ (escape host .encodeHost ++
        (ch '/' :: escape p .encodePath)) ++ [ch '?'] := by
      intro hm
      rcases List.mem_append.mp hm with hm | hm
      · exact hpre hm
      · revert hm; decide
    have hc1 : (str "https://" ++ (escape host .encodeHost ++ (ch '/' :: escape p .encodePath)) ++
        [ch '?']) ++ (Cut q (ch '#')).1 =
        str "https://" ++ (escape host .encodeHost ++
          (ch '/' :: (escape p .encodePath ++ (ch '?' :: (Cut q (ch '#')).1)))) := by
      simp
    rw [hs, Cut_append _ _ _ hpre2] at h
    simp only [hc1] at h
    by_cases hctl : stringContainsCTLByte (str "https://" ++ (escape host .encodeHost ++
        (ch '/' :: (escape p .encodePath ++ (ch '?' :: (Cut q (ch '#')).1))))) = true
    · rw [parse_ctl _ hctl] at h
      cases h
    · rw [parse_https_query _ _ _ heh hep (by simpa using hctl)] at h
      cases hh : parseHost (escape host .encodeHost) with
      | none => rw [hh] at h; cases h
      | some hst =>
        rw [hh] at h
        simp only at h
        rw [← hesc, setPath_escaped] at h
        simp only at h
        split at h
        · cases h
          exact ⟨rfl, rfl, rfl, rfl, fun hc => absurd hc hq, rfl, rfl, rfl⟩
        · obtain ⟨h1, h2, h3, h4, _, h6, h7, h8⟩ := setFragment_fields _ _ _ h
          exact ⟨h1, h3, h4, by rw [h2], fun hc => absurd hc hq, h6, h7, h8⟩

/-! ## Request reconstruction: path and query -/

theorem eventURI_eq (e : APIGatewayV2HTTPRequest) :
    eventURI e = { Scheme := str "https", Host := (eventURI e).Host, Path := (eventURI e).Path,
                   RawQuery := (eventURI e).RawQuery } := rfl

theorem startsWith_slash (p : GoString) (h : startsWith p (str "/") = true) :
    ∃ t, p = ch '/' :: t := by
  cases p with
  | nil => simp [startsWith, str, encodeRune] at h
  | cons c t =>
    refine ⟨t, ?_⟩
    have hs : str "/" = [ch '/'] := by decide
    rw [startsWith, hs] at h
    simp [List.isPrefixOf] at h
    rw [h]

theorem eventURI_path (e : APIGatewayV2HTTPRequest) :
    (eventURI e).Path =
      (if startsWith (if e.RawPath = [] then e.RequestContext.HTTP.Path else e.RawPath) (str "/")
       then (if e.RawPath = [] then e.RequestContext.HTTP.Path else e.RawPath)
       else ch '/' :: (if e.RawPath = [] then e.RequestContext.HTTP.Path else e.RawPath)) ∧
    ∃ t, (eventURI e).Path = ch '/' :: t := by
  have hlen : (e.RawPath.length = 0) = (e.RawPath = []) := by simp
  have hp : (eventURI e).Path =
      (if startsWith (if e.RawPath = [] then e.RequestContext.HTTP.Path else e.RawPath) (str "/")
       then (if e.RawPath = [] then e.RequestContext.HTTP.Path else e.RawPath)
       else ch '/' :: (if e.RawPath = [] then e.RequestContext.HTTP.Path else e.RawPath)) := by
    simp only [eventURI, hlen]
    by_cases hs : startsWith (if e.RawPath = [] then e.RequestContext.HTTP.Path else e.RawPath)
        (str "/") = true
    · simp [hs]
    · simp only [hs, Bool.not_false, if_true, Bool.false_eq_true, if_false]
      rfl
  refine ⟨hp, ?_⟩
  rw [hp]
  by_cases hs : startsWith (if e.RawPath = [] then e.RequestContext.HTTP.Path else e.RawPath)
      (str "/") = true
  · rw [if_pos hs]
    exact startsWith_slash _ hs
  · rw [if_neg hs]
    exact ⟨_, rfl⟩

/-- The URL of a request that `RequestForEvent` returns, in terms of the URL
built from the event. -/
theorem RequestForEvent_url (lib : Stdlib) (e : APIGatewayV2HTTPRequest) (req : Request)
    (hok : RequestForEvent lib e = .ok req) :
    req.URL.Scheme = str "https" ∧ req.URL.Path = (eventURI e).Path ∧
    req.URL.RawQuery = (Cut (eventURI e).RawQuery (ch '#')).1 ∧
    (∃ h, parseHost (escape (eventURI e).Host .encodeHost) = some h ∧
      req.URL.Host = removeEmptyPort h) ∧
    ((eventURI e).RawQuery = [] → req.URL.ForceQuery = false) := by
  obtain ⟨body, u, _, hp, hreq⟩ := RequestForEvent_ok lib e req hok
  obtain ⟨t, ht⟩ := (eventURI_path e).2
  rw [eventURI_eq e, ht] at hp
  obtain ⟨h1, h2, h3, h4, h5, _⟩ := Parse_String_https _ _ _ u hp
  rw [hreq]
  exact ⟨h1, by rw [ht]; exact h2, h3, ⟨u.Host, h4, rfl⟩, h5⟩

/-- C12: on an event on which `RequestForEvent` succeeds, with `p` the raw
path if it is not empty and the context path otherwise, the path of the
request's URL is `p` if `p` starts with `/` and `/` followed by `p` otherwise;
so it starts with `/`, and a non-empty raw path has priority. -/
theorem RequestForEvent_path (lib : Stdlib) (e : APIGatewayV2HTTPRequest) (req : Request)
    (hok : RequestForEvent lib e = .ok req) :
    req.URL.Path =
      (if startsWith (if e.RawPath = [] then e.RequestContext.HTTP.Path else e.RawPath) (str "/")
       then (if e.RawPath = [] then e.RequestContext.HTTP.Path else e.RawPath)
       else ch '/' :: (if e.RawPath = [] then e.RequestContext.HTTP.Path else e.RawPath)) ∧
    startsWith req.URL.Path (str "/") = true ∧
    (e.RawPath ≠ [] → req.URL.Path =
      (if startsWith e.RawPath (str "/") then e.RawPath else ch '/' :: e.RawPath)) := by
  have hu := (RequestForEvent_url lib e req hok).2.1
  have hp := eventURI_path e
  refine ⟨hu.trans hp.1, ?_, ?_⟩
  · obtain ⟨t, ht⟩ := hp.2
    have hs : str "/" = [ch '/'] := by decide
    rw [hu, ht, startsWith, hs]
    simp [List.isPrefixOf]
  · intro hne
    rw [hu, hp.1]
    simp only [hne, if_false]

theorem RequestForEvent_path_witness :
    ∃ req, RequestForEvent exampleLib contextPathEvent = .ok req ∧
      req.URL.Path = str "/a b/c?d" ∧ req.RequestURI = str "https://localhost:3000/a%20b/c%3Fd?baz=1" :=
  ⟨_, rfl,
    (RequestForEvent_path exampleLib contextPathEvent _ rfl).1.trans (by decide), by decide⟩

/-- C13, as amended: on an event with a non-empty raw query string on which
`RequestForEvent` succeeds, the query of the request's URL is the raw query
string up to its first `#` (`url.Parse` takes the rest for the fragment),
whatever the query parameters are; so it is the raw query string, character
for character, when that has no `#`. -/
theorem RequestForEvent_rawQuery (lib : Stdlib) (e : APIGatewayV2HTTPRequest) (req : Request)
    (hok : RequestForEvent lib e = .ok req) (hq : e.RawQueryString ≠ []) :
    req.URL.RawQuery = (Cut e.RawQueryString (ch '#')).1 ∧
    (ch '#' ∉ e.RawQueryString → req.URL.RawQuery = e.RawQueryString) := by
  have hu := (RequestForEvent_url lib e req hok).2.2.1
  have hlen : e.RawQueryString.length > 0 := List.length_pos.mpr hq
  have hrq : (eventURI e).RawQuery = e.RawQueryString := by
    simp only [eventURI, hlen, if_true]
  rw [hrq] at hu
  refine ⟨hu, fun hno => ?_⟩
  rw [hu, Cut_not_mem _ _ hno]

theorem RequestForEvent_rawQuery_witness :
    ∃ req, RequestForEvent exampleLib exampleEventV2 = .ok req ∧
      exampleEventV2.RawQueryString ≠ [] ∧ ch '#' ∉ exampleEventV2.RawQueryString ∧
      req.URL.RawQuery = str "baz=1" :=
  ⟨_, rfl, by decide, by decide,
    ((RequestForEvent_rawQuery exampleLib exampleEventV2 _ rfl (by decide)).2 (by decide)).trans
      (by decide)⟩

/-- C13 fails as stated for a raw query string with a `#`: for `a=1#b`
reconstruction succeeds and the query of the request's URL is `a=1`, the rest
having become the fragment `b`. -/
theorem RequestForEvent_rawQuery_hash_counterexample :
    ∃ req, RequestForEvent exampleLib hashQueryEvent = .ok req ∧
      hashQueryEvent.RawQueryString = str "a=1#b" ∧
      req.URL.RawQuery = str "a=1" ∧ req.URL.Fragment = str "b" ∧
      req.URL.RawQuery ≠ hashQueryEvent.RawQueryString :=
  ⟨_, rfl, by decide, by decide, by decide, by decide⟩

/-! ## net/url: the host survives `URL.String` and `url.Parse` -/

theorem escape_append (a b : GoString) (mode : Encoding) :
    escape (a ++ b) mode = escape a mode ++ escape b mode := by
  induction a with
  | nil => simp [escape]
  | cons c t ih =>
    rw [List.cons_append]
    by_cases hc : shouldEscape c mode = true
    · by_cases hq : c.val = 32 ∧ mode = .encodeQueryComponent
      · obtain ⟨hq1, hq2⟩ := hq
        subst hq2
        simp [escape, hc, hq1, ih]
      · simp [escape, hc, hq, ih]
    · simp [escape, hc, ih]

theorem LastIndex_cons (x : Byte) (r : GoString) (sep : Byte) :
    LastIndex (x :: r) sep =
      match LastIndex r sep with
      | some j => some (j + 1)
      | none => if x = sep then some 0 else none := by
  rw [LastIndex]

/-- The last `]` of an escaped host stands where the escaping of a prefix of
the host ends. -/
theorem LastIndex_escape_bracket (h : GoString) (i : Nat)
    (hi : LastIndex (escape h .encodeHost) (ch ']') = some i) :
    ∃ h1 h2, h = h1 ++ ch ']' :: h2 ∧ i = (escape h1 .encodeHost).length := by
  induction h generalizing i with
  | nil => simp [escape, LastIndex] at hi
  | cons c t ih =>
    by_cases hc : shouldEscape c .encodeHost = true
    · rw [escape_cons_hex c t _ hc (by decide)] at hi
      have h1 := upperhex_facts (c.val / 16) (by have := c.isLt; omega)
      have h2 := upperhex_facts (c.val % 16) (by omega)
      rw [LastIndex_cons, LastIndex_cons, LastIndex_cons] at hi
      cases hl : LastIndex (escape t .encodeHost) (ch ']') with
      | some j =>
        rw [hl] at hi
        simp only [Option.some.injEq] at hi
        obtain ⟨t1, t2, ht, hj⟩ := ih j hl
        refine ⟨c :: t1, t2, by rw [ht]; rfl, ?_⟩
        rw [escape_cons_hex c t1 _ hc (by decide)]
        simp only [List.length_cons]
        omega
      | none =>
        rw [hl] at hi
        have hp : ch '%' ≠ ch ']' := by decide
        simp [h1.2.2.2.2.2.2.2.1, h2.2.2.2.2.2.2.2.1, hp] at hi
    · have hc2 : shouldEscape c .encodeHost = false := by simpa using hc
      rw [escape_cons_raw c t _ hc2, LastIndex_cons] at hi
      cases hl : LastIndex (escape t .encodeHost) (ch ']') with
      | some j =>
        rw [hl] at hi
        simp only [Option.some.injEq] at hi
        obtain ⟨t1, t2, ht, hj⟩ := ih j hl
        refine ⟨c :: t1, t2, by rw [ht]; rfl, ?_⟩
        rw [escape_cons_raw c t1 _ hc2]
        simp only [List.length_cons]
        omega
      | none =>
        rw [hl] at hi
        simp only at hi
        by_cases hb : c = ch ']'
        · rw [if_pos hb] at hi
          simp only [Option.some.injEq] at hi
          exact ⟨[], t, by rw [hb]; rfl, by rw [← hi]; rfl⟩
        · rw [if_neg hb] at hi
          cases hi

theorem indexPercent25_cons (c : Byte) (rest : GoString) :
    indexPercent25 (c :: rest) =
      if (str "%25").isPrefixOf (c :: rest) then some 0
      else (indexPercent25 rest).map (fun i => i + 1) := by
  rw [indexPercent25]

theorem isPrefixOf_percent25 (c : Byte) (rest : GoString) (h : c ≠ ch '%') :
    (str "%25").isPrefixOf (c :: rest) = false := by
  have hs : str "%25" = [ch '%', ch '2', ch '5'] := by decide
  rw [hs]
  simp [List.isPrefixOf, Ne.symm h]

theorem nibbles_percent (c : Byte) (h1 : upperhex (c.val / 16) = ch '2')
    (h2 : upperhex (c.val % 16) = ch '5') : c = ch '%' := by
  have f1 := (upperhex_facts (c.val / 16) (by have := c.isLt; omega)).2.1
  have f2 := (upperhex_facts (c.val % 16) (by omega)).2.1
  rw [h1] at f1
  rw [h2] at f2
  have g1 : unhex (ch '2') = 2 := by decide
  have g2 : unhex (ch '5') = 5 := by decide
  rw [g1] at f1
  rw [g2] at f2
  apply Fin.ext
  have g3 : (ch '%').val = 37 := by decide
  rw [g3]
  omega

/-- The first `%25` of an escaped host stands where the escaping of a prefix
of the host ends, and escapes a `%` of the host. -/
theorem indexPercent25_escape (h : GoString) (z : Nat)
    (hz : indexPercent25 (escape h .encodeHost) = some z) :
    ∃ a b, h = a ++ ch '%' :: b ∧ z = (escape a .encodeHost).length := by
  induction h generalizing z with
  | nil => simp [escape, indexPercent25] at hz
  | cons c t ih =>
    by_cases hc : shouldEscape c .encodeHost = true
    · rw [escape_cons_hex c t _ hc (by decide)] at hz
      have h1 := upperhex_facts (c.val / 16) (by have := c.isLt; omega)
      have h2 := upperhex_facts (c.val % 16) (by omega)
      rw [indexPercent25_cons] at hz
      by_cases hp : (str "%25").isPrefixOf
          (ch '%' :: upperhex (c.val / 16) :: upperhex (c.val % 16) :: escape t .encodeHost) = true
      · rw [if_pos hp] at hz
        have hs : str "%25" = [ch '%', ch '2', ch '5'] := by decide
        rw [hs] at hp
        simp [List.isPrefixOf] at hp
        have hcp : c = ch '%' := nibbles_percent c hp.1.symm hp.2.symm
        simp only [Option.some.injEq] at hz
        exact ⟨[], t, by rw [hcp]; rfl, by rw [← hz]; rfl⟩
      · rw [if_neg hp, indexPercent25_cons, isPrefixOf_percent25 _ _ h1.2.2.1,
          indexPercent25_cons, isPrefixOf_percent25 _ _ h2.2.2.1] at hz
        simp only [Bool.false_eq_true, if_false, Option.map_map] at hz
        cases hl : indexPercent25 (escape t .encodeHost) with
        | none => rw [hl] at hz; cases hz
        | some j =>
          rw [hl] at hz
          simp only [Option.map_some', Function.comp_apply, Option.some.injEq] at hz
          obtain ⟨a, b, ht, hj⟩ := ih j hl
          refine ⟨c :: a, b, by rw [ht]; rfl, ?_⟩
          rw [escape_cons_hex c a _ hc (by decide)]
          simp only [List.length_cons]
          omega
    · have hc2 : shouldEscape c .encodeHost = false := by simpa using hc
      have hpct : c ≠ ch '%' := by
        intro hp
        rw [hp, shouldEscape_percent] at hc2
        cases hc2
      rw [escape_cons_raw c t _ hc2, indexPercent25_cons, isPrefixOf_percent25 _ _ hpct] at hz
      simp only [Bool.false_eq_true, if_false] at hz
      cases hl : indexPercent25 (escape t .encodeHost) with
      | none => rw [hl] at hz; cases hz
      | some j =>
        rw [hl] at hz
        simp only [Option.map_some', Option.some.injEq] at hz
        obtain ⟨a, b, ht, hj⟩ := ih j hl
        refine ⟨c :: a, b, by rw [ht]; rfl, ?_⟩
        rw [escape_cons_raw c a _ hc2]
        simp only [List.length_cons]
        omega

/-- What `parseHost` makes of an escaped host, when it succeeds, is the host. -/
theorem parseHost_escape (h r : GoString)
    (hr : parseHost (escape h .encodeHost) = some r) : r = h := by
  have hu : ∀ x y, unescape (escape x .encodeHost) .encodeHost = some y → y = x :=
    unescape_escape_eq _ _ (by decide) (by decide)
  have huz : ∀ x y, unescape (escape x .encodeHost) .encodeZone = some y → y = x :=
    unescape_escape_eq _ _ (by decide) (by decide)
  unfold parseHost at hr
  split at hr
  · split at hr
    · cases hr
    · rename_i i hi
      split at hr
      · cases hr
      · obtain ⟨h1, h2, hh, hlen⟩ := LastIndex_escape_bracket h i hi
        have htake : (escape h .encodeHost).take i = escape h1 .encodeHost := by
          rw [hh, escape_append, hlen, List.take_left']
          rfl
        have hdrop : (escape h .encodeHost).drop i = escape (ch ']' :: h2) .encodeHost := by
          rw [hh, escape_append, hlen, List.drop_left']
          rfl
        rw [htake] at hr
        split at hr
        · rename_i zone hzone
          obtain ⟨a, b, hab, hzlen⟩ := indexPercent25_escape h1 zone hzone
          have htz : (escape h .encodeHost).take zone = escape a .encodeHost := by
            rw [hh, hab, escape_append, escape_append, List.append_assoc, hzlen,
              List.take_left']
            rfl
          have hdz : (escape h1 .encodeHost).drop zone = escape (ch '%' :: b) .encodeHost := by
            rw [hab, escape_append, hzlen, List.drop_left']
            rfl
          rw [htz, hdz, hdrop] at hr
          split at hr
          · rename_i x1 x2 x3 e1 e2 e3
            cases hr
            rw [hu _ _ e1, huz _ _ e2, hu _ _ e3, hh, hab]
          · cases hr
        · exact hu _ _ hr
  · split at hr
    · split at hr
      · cases hr
      · exact hu _ _ hr
    · exact hu _ _ hr

/-! ## Request reconstruction: scheme and host -/

theorem removeEmptyPort_of_last (h : GoString) (hl : h.getLast? ≠ some (ch ':')) :
    removeEmptyPort h = h := by
  unfold removeEmptyPort
  simp [hl]

theorem eventURI_host (e : APIGatewayV2HTTPRequest) :
    (eventURI e).Host =
      match e.Headers.lookup (str "X-Forwarded-Port") with
      | some port =>
        JoinHostPort (if e.RequestContext.DomainName = [] then str "localhost"
          else e.RequestContext.DomainName) port
      | none =>
        if e.RequestContext.DomainName = [] then str "localhost"
        else e.RequestContext.DomainName := by
  have hlen : (e.RequestContext.DomainName.length = 0) = (e.RequestContext.DomainName = []) := by
    simp
  simp only [eventURI, hlen]

/-- C14, as amended: on an event on which `RequestForEvent` succeeds the
request's URL has scheme `https`, and its host is built from `base`, the
domain name or `localhost` when that is empty: with a header
`X-Forwarded-Port` of value `p` it is `net.JoinHostPort(base, p)`, otherwise
`base`, in both cases without a final `:` that stands for an empty port.  So
it is `base:p` when `base` has no colon and `p` is not empty and does not end
in a colon, and `base` when there is no such header and `base` does not end
in a colon. -/
theorem RequestForEvent_host (lib : Stdlib) (e : APIGatewayV2HTTPRequest) (req : Request)
    (hok : RequestForEvent lib e = .ok req) :
    req.URL.Scheme = str "https" ∧
    req.URL.Host = removeEmptyPort
      (match e.Headers.lookup (str "X-Forwarded-Port") with
       | some port =>
         JoinHostPort (if e.RequestContext.DomainName = [] then str "localhost"
           else e.RequestContext.DomainName) port
       | none =>
         if e.RequestContext.DomainName = [] then str "localhost"
         else e.RequestContext.DomainName) ∧
    (∀ p, e.Headers.lookup (str "X-Forwarded-Port") = some p →
      (if e.RequestContext.DomainName = [] then str "localhost"
        else e.RequestContext.DomainName).contains (ch ':') = false →
      p ≠ [] → p.getLast? ≠ some (ch ':') →
      req.URL.Host = (if e.RequestContext.DomainName = [] then str "localhost"
        else e.RequestContext.DomainName) ++ str ":" ++ p) ∧
    (e.Headers.lookup (str "X-Forwarded-Port") = none →
      (if e.RequestContext.DomainName = [] then str "localhost"
        else e.RequestContext.DomainName).getLast? ≠ some (ch ':') →
      req.URL.Host = (if e.RequestContext.DomainName = [] then str "localhost"
        else e.RequestContext.DomainName)) := by
  obtain ⟨hs, _, _, ⟨h, hph, hhost⟩, _⟩ := RequestForEvent_url lib e req hok
  have hh : h = (eventURI e).Host := parseHost_escape _ _ hph
  rw [hh, eventURI_host] at hhost
  refine ⟨hs, hhost, ?_, ?_⟩
  · intro p hl hc hne hlast
    rw [hhost, hl]
    simp only [JoinHostPort, hc, Bool.false_eq_true, if_false]
    apply removeEmptyPort_of_last
    rw [List.getLast?_append_of_ne_nil _ hne]
    exact hlast
  · intro hl hlast
    rw [hhost, hl]
    exact removeEmptyPort_of_last _ hlast

theorem RequestForEvent_host_witness :
    ∃ req, RequestForEvent exampleLib exampleEvent = .ok req ∧
      req.URL.Scheme = str "https" ∧ req.URL.Host = str "localhost:3000" :=
  ⟨_, rfl, (RequestForEvent_host exampleLib exampleEvent _ rfl).1,
    ((RequestForEvent_host exampleLib exampleEvent _ rfl).2.2.1 (str "3000") (by decide)
      (by decide) (by decide) (by decide)).trans (by decide)⟩

/-- C14 fails as stated: with the domain name `::1` and the forwarded port
`3000` the host is `[::1]:3000`, not `::1:3000`; and with an empty forwarded
port the host is `localhost`, not `localhost:`. -/
theorem RequestForEvent_host_counterexample :
    (∃ req, RequestForEvent exampleLib ipv6Event = .ok req ∧
      ipv6Event.Headers.lookup (str "X-Forwarded-Port") = some (str "3000") ∧
      req.URL.Host = str "[::1]:3000" ∧
      req.URL.Host ≠ ipv6Event.RequestContext.DomainName ++ str ":" ++ str "3000") ∧
    (∃ req, RequestForEvent exampleLib emptyPortEvent = .ok req ∧
      emptyPortEvent.Headers.lookup (str "X-Forwarded-Port") = some (str "") ∧
      req.URL.Host = str "localhost" ∧
      req.URL.Host ≠ str "localhost" ++ str ":" ++ str "") :=
  ⟨⟨_, rfl, by decide, by decide, by decide⟩, ⟨_, rfl, by decide, by decide, by decide⟩⟩

/-! ## net/url: `Values.Encode` -/

theorem Values_Add_fresh (v : Values) (key value : GoString)
    (h : ∀ kv ∈ v, kv.1 ≠ key) : Values.Add v key value = v ++ [(key, [value])] := by
  induction v with
  | nil => rfl
  | cons kv rest ih =>
    obtain ⟨k, vs⟩ := kv
    have hk : k ≠ key := h (k, vs) (List.mem_cons_self _ _)
    simp only [Values.Add, hk, if_false, List.cons_append]
    rw [ih (fun kv2 h2 => h kv2 (List.mem_cons_of_mem _ h2))]

/-- The `url.Values` that the loop over a map with distinct keys builds: one
value for each key. -/
theorem foldl_Values_Add (params : List (GoString × GoString)) (acc : Values)
    (hnd : (params.map Prod.fst).Nodup)
    (hacc : ∀ kv ∈ params, ∀ a ∈ acc, a.1 ≠ kv.1) :
    params.foldl (fun query kv => Values.Add query kv.1 kv.2) acc =
      acc ++ params.map (fun kv => (kv.1, [kv.2])) := by
  induction params generalizing acc with
  | nil => simp
  | cons kv rest ih =>
    rw [List.map_cons, List.nodup_cons] at hnd
    rw [List.foldl_cons, Values_Add_fresh acc kv.1 kv.2
      (fun a ha => hacc kv (List.mem_cons_self _ _) a ha), ih _ hnd.2]
    · simp
    · intro kv2 h2 a ha
      rcases List.mem_append.mp ha with ha | ha
      · exact hacc kv2 (List.mem_cons_of_mem _ h2) a ha
      · simp only [List.mem_singleton] at ha
        rw [ha]
        intro hc
        exact hnd.1 (List.mem_map.mpr ⟨kv2, h2, hc.symm⟩)

theorem lookup_map_single (params : List (GoString × GoString)) (k : GoString) :
    (params.map (fun kv => (kv.1, [kv.2]))).lookup k = (params.lookup k).map (fun v => [v]) := by
  induction params with
  | nil => rfl
  | cons kv rest ih =>
    obtain ⟨k2, v2⟩ := kv
    simp only [List.map_cons, List.lookup]
    cases hk : (k == k2) with
    | true => rfl
    | false => exact ih

theorem intercalate_cons (sep p : GoString) (ps : List GoString) :
    sep.intercalate (p :: ps) = p ++ (ps.map (fun x => sep ++ x)).flatten := by
  induction ps generalizing p with
  | nil => simp [List.intercalate, List.intersperse]
  | cons q qs ih =>
    have h := ih q
    simp only [List.intercalate, List.intersperse] at h ⊢
    simp [h]

theorem foldl_join (sep : GoString) (ps : List GoString) (buf : GoString) (hbuf : buf ≠ [])
    :
    ps.foldl (fun buf p => (if buf ≠ [] then buf ++ sep else buf) ++ p) buf =
      buf ++ (ps.map (fun x => sep ++ x)).flatten := by
  induction ps generalizing buf with
  | nil => simp
  | cons p ps ih =>
    rw [List.foldl_cons, if_pos hbuf, ih _ (by simp [hbuf])]
    simp

theorem foldl_join_nil (sep : GoString) (ps : List GoString) (hne : ∀ p ∈ ps, p ≠ []) :
    ps.foldl (fun buf p => (if buf ≠ [] then buf ++ sep else buf) ++ p) [] =
      sep.intercalate ps := by
  cases ps with
  | nil => rfl
  | cons p ps =>
    rw [List.foldl_cons, intercalate_cons]
    simp only [ne_eq, not_true_eq_false, if_false, List.nil_append]
    exact foldl_join sep ps p (hne p (List.mem_cons_self _ _))

theorem lookup_of_key (params : List (GoString × GoString)) (k : GoString)
    (hk : k ∈ params.map Prod.fst) : ∃ v, (k, v) ∈ params := by
  obtain ⟨kv, hkv, hfst⟩ := List.mem_map.mp hk
  exact ⟨kv.2, by rw [← hfst]; exact hkv⟩

/-- For a map with distinct keys, `Values.Encode` of the values built from it
joins with `&`, in ascending order of the keys, `key=value` with both sides
query-escaped. -/
theorem Encode_of_params (params : List (GoString × GoString))
    (hnd : (params.map Prod.fst).Nodup) :
    Values.Encode (params.foldl (fun query kv => Values.Add query kv.1 kv.2) []) =
      (str "&").intercalate
        (((params.map Prod.fst).insertionSort (fun a b => a ≤ b)).map
          (fun k => QueryEscape k ++ str "=" ++ QueryEscape ((params.lookup k).getD []))) := by
  rw [foldl_Values_Add params [] hnd (fun _ _ a ha => absurd ha (List.not_mem_nil a)),
    List.nil_append]
  unfold Values.Encode
  have hkeys : (params.map (fun kv => (kv.1, [kv.2]))).map Prod.fst = params.map Prod.fst := by
    rw [List.map_map]
    rfl
  simp only [hkeys]
  rw [← foldl_join_nil (str "&") _ (by
    intro p hp
    obtain ⟨k, _, hk⟩ := List.mem_map.mp hp
    rw [← hk]
    intro hc
    have h2 : str "=" = [] := (List.append_eq_nil.mp (List.append_eq_nil.mp hc).1).2
    exact absurd h2 (by decide)), List.foldl_map]
  apply List.foldl_ext
  intro buf k hk
  have hk2 : k ∈ params.map Prod.fst := (List.perm_insertionSort _ _).subset hk
  obtain ⟨v, hv⟩ := lookup_of_key params k hk2
  rw [lookup_map_single, lookup_of_mem k v params hnd hv]
  simp [List.append_assoc]

/-- The canonical query string, by sorted keys and lookups. -/
theorem canonicalQuery_eq (params : List (GoString × GoString))
    (hnd : (params.map Prod.fst).Nodup) :
    canonicalQuery params =
      (str "&").intercalate
        (((params.map Prod.fst).insertionSort (fun a b => a ≤ b)).map
          (fun k => QueryEscape k ++ str "=" ++ QueryEscape ((params.lookup k).getD []))) := by
  unfold canonicalQuery
  have hmap : (params.insertionSort (fun a b => a.1 ≤ b.1)).map Prod.fst =
      (params.map Prod.fst).insertionSort (fun a b => a ≤ b) :=
    List.map_insertionSort (r := fun a b => a.1 ≤ b.1) (s := fun a b => a ≤ b) Prod.fst params
      (fun _ _ _ _ => Iff.rfl)
  rw [← hmap, List.map_map]
  congr 1
  apply List.map_congr_left
  intro kv hkv
  have hin : kv ∈ params := (List.perm_insertionSort _ _).subset hkv
  simp only [Function.comp_apply]
  rw [lookup_of_mem kv.1 kv.2 params hnd hin]
  rfl

theorem canonicalQuery_perm (ps params : List (GoString × GoString)) (hp : ps.Perm params)
    (hnd : (params.map Prod.fst).Nodup) : canonicalQuery ps = canonicalQuery params := by
  have hnd2 : (ps.map Prod.fst).Nodup := (hp.map Prod.fst).nodup_iff.mpr hnd
  rw [canonicalQuery_eq ps hnd2, canonicalQuery_eq params hnd]
  have hkeys : (ps.map Prod.fst).insertionSort (fun a b => a ≤ b) =
      (params.map Prod.fst).insertionSort (fun a b => a ≤ b) := by
    apply List.eq_of_perm_of_sorted (r := fun a b => a ≤ b)
    · exact (List.perm_insertionSort _ _).trans
        ((hp.map Prod.fst).trans (List.perm_insertionSort _ _).symm)
    · exact List.sorted_insertionSort _ _
    · exact List.sorted_insertionSort _ _
  rw [hkeys]
  congr 1
  apply List.map_congr_left
  intro k _
  rw [lookup_perm k ps params hp hnd2]

/-- No byte of a query-escaped text is `#`. -/
theorem QueryEscape_clean (x : GoString) : ch '#' ∉ QueryEscape x := by
  unfold QueryEscape
  induction x with
  | nil => simp [escape]
  | cons c t ih =>
    have h1 := upperhex_facts (c.val / 16) (by have := c.isLt; omega)
    have h2 := upperhex_facts (c.val % 16) (by omega)
    have hp1 : ch '#' ≠ ch '+' := by decide
    have hp2 : ch '#' ≠ ch '%' := by decide
    by_cases hc : shouldEscape c .encodeQueryComponent = true
    · by_cases hq : c.val = 32
      · simp only [escape, hc, hq, and_self, if_true, List.mem_cons, not_or]
        exact ⟨hp1, ih⟩
      · simp only [escape, hc, hq, false_and, if_true, if_false, List.mem_cons, not_or]
        exact ⟨hp2, Ne.symm h1.2.2.2.2.2.1, Ne.symm h2.2.2.2.2.2.1, ih⟩
    · have hc2 : shouldEscape c .encodeQueryComponent = false := by simpa using hc
      rw [escape_cons_raw c t _ hc2]
      simp only [List.mem_cons, not_or]
      refine ⟨?_, ih⟩
      intro hh
      rw [← hh, shouldEscape_query_special.2.1] at hc2
      cases hc2

theorem intercalate_clean (sep : GoString) (ps : List GoString) (c : Byte) (hsep : c ∉ sep)
    (hps : ∀ p ∈ ps, c ∉ p) : c ∉ sep.intercalate ps := by
  cases ps with
  | nil => simp [List.intercalate, List.intersperse]
  | cons p rest =>
    rw [intercalate_cons]
    simp only [List.mem_append, List.mem_flatten, List.mem_map, not_or, not_exists, not_and]
    refine ⟨hps p (List.mem_cons_self _ _), ?_⟩
    intro l hl hc
    obtain ⟨x, hx, hxl⟩ := hl
    rw [← hxl] at hc
    rcases List.mem_append.mp hc with hc | hc
    · exact hsep hc
    · exact hps x (List.mem_cons_of_mem _ hx) hc

theorem canonicalQuery_clean (params : List (GoString × GoString)) :
    ch '#' ∉ canonicalQuery params := by
  unfold canonicalQuery
  apply intercalate_clean
  · decide
  · intro p hp
    obtain ⟨kv, _, hkv⟩ := List.mem_map.mp hp
    rw [← hkv]
    simp only [List.mem_append, not_or]
    exact ⟨⟨QueryEscape_clean _, by decide⟩, QueryEscape_clean _⟩

/-! ## Request reconstruction: the query parameters -/

theorem eventURI_query (e : APIGatewayV2HTTPRequest) (hraw : e.RawQueryString = [])
    (hnd : (e.QueryStringParameters.map Prod.fst).Nodup) :
    (eventURI e).RawQuery =
      if e.QueryStringParameters = [] then [] else canonicalQuery e.QueryStringParameters := by
  have hlen : (e.QueryStringParameters.length > 0) = (e.QueryStringParameters ≠ []) := by
    simp [List.length_pos]
  simp only [eventURI, hraw, List.length_nil, gt_iff_lt, Nat.lt_irrefl, if_false]
  by_cases hq : e.QueryStringParameters = []
  · simp [hq]
  · have hpos : 0 < e.QueryStringParameters.length := List.length_pos.mpr hq
    simp only [hpos, if_true, hq, if_false]
    rw [Encode_of_params _ hnd, canonicalQuery_eq _ hnd]

/-- C17: on an event with an empty raw query string whose query parameters
form a map (distinct keys) and on which `RequestForEvent` succeeds, the query
of the request's URL is, for a non-empty map, its canonical encoding: the
pairs `key=value` with key and value query-escaped, in ascending order of the
keys, joined by `&`; visiting the map in any other order gives the same
encoding and the same request; for an empty map the URL has no query. -/
theorem RequestForEvent_query_parameters (lib : Stdlib) (e : APIGatewayV2HTTPRequest)
    (req : Request) (hok : RequestForEvent lib e = .ok req) (hraw : e.RawQueryString = [])
    (hnd : (e.QueryStringParameters.map Prod.fst).Nodup) :
    (e.QueryStringParameters ≠ [] →
      req.URL.RawQuery = canonicalQuery e.QueryStringParameters) ∧
    (∀ ps, ps.Perm e.QueryStringParameters →
      canonicalQuery ps = canonicalQuery e.QueryStringParameters ∧
      RequestForEvent lib { e with QueryStringParameters := ps } = .ok req) ∧
    (e.QueryStringParameters = [] → req.URL.RawQuery = [] ∧ req.URL.ForceQuery = false) := by
  obtain ⟨_, _, hrq, _, hfq⟩ := RequestForEvent_url lib e req hok
  have hq := eventURI_query e hraw hnd
  refine ⟨?_, ?_, ?_⟩
  · intro hne
    rw [hrq, hq, if_neg hne, Cut_not_mem _ _ (canonicalQuery_clean _)]
  · intro ps hp
    have hcq := canonicalQuery_perm ps e.QueryStringParameters hp hnd
    refine ⟨hcq, ?_⟩
    have hnd2 : (ps.map Prod.fst).Nodup := (hp.map Prod.fst).nodup_iff.mpr hnd
    have hq2 := eventURI_query { e with QueryStringParameters := ps } hraw hnd2
    have hnil : (ps = []) = (e.QueryStringParameters = []) := by
      apply propext
      constructor
      · intro h
        rw [h] at hp
        exact hp.symm.eq_nil
      · intro h
        rw [h] at hp
        exact hp.eq_nil
    have huri : eventURI { e with QueryStringParameters := ps } = eventURI e := by
      rw [eventURI_eq { e with QueryStringParameters := ps }, eventURI_eq e, hq2, hq]
      simp only [hnil, hcq]
      rfl
    rw [← hok]
    unfold RequestForEvent
    simp only [huri]
  · intro hempty
    rw [hq, if_pos hempty] at hrq
    exact ⟨hrq, hfq (by rw [hq, if_pos hempty])⟩

theorem RequestForEvent_query_parameters_witness :
    ∃ req, RequestForEvent exampleLib queryParamsEvent = .ok req ∧
      queryParamsEvent.RawQueryString = [] ∧
      (queryParamsEvent.QueryStringParameters.map Prod.fst).Nodup ∧
      req.URL.RawQuery = str "a=%C3%A9&k%23=1%262&q=a+b" ∧
      RequestForEvent exampleLib
        { queryParamsEvent with
          QueryStringParameters := queryParamsEvent.QueryStringParameters.reverse } = .ok req :=
  ⟨_, rfl, by decide, by decide,
    ((RequestForEvent_query_parameters exampleLib queryParamsEvent _ rfl (by decide)
      (by decide)).1 (by decide)).trans (by decide),
    ((RequestForEvent_query_parameters exampleLib queryParamsEvent _ rfl (by decide)
      (by decide)).2.1 _ (List.reverse_perm _)).2⟩

end Proxy
